import Mathlib

set_option maxRecDepth 8192

namespace ZylosBrowser

/-!
Shallow embedding of the zylos-browser core: the Site Knowledge Store
(src/lib/knowledge.js) and the Sequence Execution Engine (src/lib/sequence.js).

Modelling conventions:
* JavaScript objects whose keys carry meaning are association lists in
  insertion order; plain records become structures with Option fields
  (an absent JSON key is none).
* JS truthiness tests on strings/options are modelled explicitly.
* External effects are oracle parameters: the WHATWG URL parser is a function
  from a URL string to an optional (hostname, pathname) pair, the per-domain
  knowledge file system is a function from domain to file state, and the
  agent-browser process is an environment giving the outcome of each
  executeAction attempt and each snapshot call (snapshot calls are numbered
  in the order they are issued).
* A thrown JS exception that the code under consideration does not catch is
  an Except.error value.
-/

/-- Truthiness of an optional JS string: undefined/absent and "" are falsy. -/
def strTruthy : Option String → Bool
  | some s => !(s == "")
  | none => false

/-- Truthiness of an optional JS boolean: only an explicit true is truthy. -/
def boolTruthy : Option Bool → Bool
  | some b => b
  | none => false

/-! ## Path pattern matching (knowledge.js, pathMatches) -/

/-- One token of the compiled path pattern. pathMatches escapes every regex
metacharacter in the pattern, so after compilation each non-star character
matches exactly itself, and each star becomes the regex class of one or more
non-slash characters. -/
inductive PatTok where
  | lit (c : Char)
  | star
deriving Repr, DecidableEq

/-- Compilation performed by pathMatches: star becomes the wildcard, every
other character is literal (the escaping pass makes metacharacters literal). -/
def compilePattern (pattern : List Char) : List PatTok :=
  pattern.map (fun c => if c = '*' then PatTok.star else PatTok.lit c)

/-- Anchored match of the compiled pattern against a path, equivalent to the
backtracking JS regex engine on the generated pattern: a star consumes one or
more non-slash characters. -/
def tokMatch : List PatTok → List Char → Bool
  | [], [] => true
  | [], _ :: _ => false
  | PatTok.lit _ :: _, [] => false
  | PatTok.lit c :: ts, d :: s => c == d && tokMatch ts s
  | PatTok.star :: _, [] => false
  | PatTok.star :: ts, d :: s =>
      !(d == '/') && (tokMatch ts s || tokMatch (PatTok.star :: ts) s)

/-- pathMatches from knowledge.js: exact string equality short-circuits true,
otherwise the compiled pattern is matched against the whole path. -/
def pathMatches (urlPath pattern : String) : Bool :=
  if urlPath == pattern then true
  else tokMatch (compilePattern pattern.data) urlPath.data

/-- Declarative reading of the pattern language as the spec states it: the
whole path decomposes so that every star of the pattern consumes one or more
non-slash characters and every other pattern character matches itself. -/
inductive PatternMatchSpec : List Char → List Char → Prop where
  | nil : PatternMatchSpec [] []
  | lit {c : Char} {pat s : List Char} :
      c ≠ '*' → PatternMatchSpec pat s → PatternMatchSpec (c :: pat) (c :: s)
  | star {pat s : List Char} (seg : List Char) :
      seg ≠ [] → (∀ c ∈ seg, c ≠ '/') → PatternMatchSpec pat s →
      PatternMatchSpec ('*' :: pat) (seg ++ s)

/-! ## Association-list model of JS objects -/

/-- Property lookup on a JS object modelled as an association list (objects
parsed from JSON have pairwise distinct keys, so the first hit is the value). -/
def lookupA {α : Type} (l : List (String × α)) (k : String) : Option α :=
  (l.find? (fun p => p.1 == k)).map (fun p => p.2)

/-- First-of two optional values (the match-or-else used by the merge
lemmas). -/
def orElseO {α : Type} (a b : Option α) : Option α :=
  match a with
  | some w => some w
  | none => b

/-- Does the object have the given key. -/
def hasKey {α : Type} (l : List (String × α)) (k : String) : Bool :=
  l.any (fun p => p.1 == k)

/-- Object.assign(tgt, src): every source key in order overwrites the value of
an existing target key in place, or is appended as a new key. -/
def assignAssoc {α : Type} (tgt src : List (String × α)) : List (String × α) :=
  src.foldl (fun acc kv =>
    if hasKey acc kv.1 then
      acc.map (fun p => if p.1 == kv.1 then (p.1, kv.2) else p)
    else acc ++ [kv]) tgt

/-! ## Site Knowledge Store data model (knowledge.js) -/

/-- Value of one entry of a section's elements map. -/
structure ElemInfo where
  selector : Option String := none
  ref_name : Option String := none
  note : Option String := none
deriving Repr, DecidableEq

/-- Editor descriptor of a section. -/
structure EditorInfo where
  type : Option String := none
  selector : Option String := none
  note : Option String := none
deriving Repr, DecidableEq

/-- Value of one entry of a section's tasks map. -/
structure TaskInfo where
  steps : Option (List String) := none
  success_count : Option Nat := none
  failure_count : Option Nat := none
  last_success : Option String := none
  last_failure : Option String := none
  note : Option String := none
deriving Repr, DecidableEq

/-- One knowledge section (the value of the _base key or of a pattern key).
An absent JSON key is none. -/
structure KSection where
  elements : Option (List (String × ElemInfo)) := none
  editor : Option EditorInfo := none
  tasks : Option (List (String × TaskInfo)) := none
  gotchas : Option (List String) := none
  description : Option String := none
deriving Repr, DecidableEq

/-- A parsed per-domain knowledge file. The reserved keys domain and updated
are explicit fields; sections holds every other key, in the object's insertion
order (a well-formed file produced by this code never stores a section under a
reserved key). -/
structure Knowledge where
  domain : Option String := none
  updated : Option String := none
  sections : List (String × KSection) := []
deriving Repr, DecidableEq

/-- State of one domain's knowledge file on disk: missing, unparseable JSON,
or a parsed record. -/
inductive RawFile where
  | absent
  | malformed
  | valid (k : Knowledge)
deriving Repr, DecidableEq

/-- Result object built by loadKnowledge. -/
structure ResolvedKnowledge where
  domain : String
  url : String
  path : String
  elements : List (String × ElemInfo) := []
  editor : Option EditorInfo := none
  tasks : List (String × TaskInfo) := []
  gotchas : List String := []
  matchedPatterns : List String := []
  description : Option String := none
deriving Repr, DecidableEq

/-- hostname.replace of the leading www. label. -/
def stripWWW (host : String) : String :=
  match host.data with
  | 'w' :: 'w' :: 'w' :: '.' :: rest => String.mk rest
  | _ => host

/-- extractDomain from knowledge.js. The WHATWG URL parser (new URL) is an
oracle giving the canonical (hostname, pathname) pair, or none when the
constructor throws. -/
def extractDomain (parseURL : String → Option (String × String)) (url : String) :
    Option String :=
  (parseURL url).map (fun hp => stripWWW hp.1)

/-- extractPath from knowledge.js: the pathname, or "/" when parsing throws. -/
def extractPath (parseURL : String → Option (String × String)) (url : String) :
    String :=
  match parseURL url with
  | some hp => hp.2
  | none => "/"

/-- The guard `if (!domain) return ...` of the store operations: a null or
empty extracted domain fails the truthiness test. -/
def domainOf (parseURL : String → Option (String × String)) (url : String) :
    Option String :=
  match extractDomain parseURL url with
  | some d => if d == "" then none else some d
  | none => none

/-- mergeKnowledge from knowledge.js: elements and tasks are Object.assigned
(per-key overwrite), editor is replaced when present, gotchas are appended,
and description is replaced only when truthy — a present-but-empty string
fails the source's `if (section.description)` guard and is skipped. -/
def mergeKnowledge (r : ResolvedKnowledge) (s : KSection) : ResolvedKnowledge :=
  let r1 := match s.elements with
    | some es => { r with elements := assignAssoc r.elements es }
    | none => r
  let r2 := match s.editor with
    | some e => { r1 with editor := some e }
    | none => r1
  let r3 := match s.tasks with
    | some ts => { r2 with tasks := assignAssoc r2.tasks ts }
    | none => r2
  let r4 := match s.gotchas with
    | some gs => { r3 with gotchas := r3.gotchas ++ gs }
    | none => r3
  match s.description with
  | some d => if d == "" then r4 else { r4 with description := some d }
  | none => r4

/-- The reserved keys skipped by the pattern loop of loadKnowledge. -/
def reservedKey (k : String) : Bool :=
  k == "domain" || k == "updated" || k == "_base"

/-- loadKnowledge from knowledge.js: null when the domain does not parse, the
file is missing, or its JSON is malformed (the error is logged and swallowed);
otherwise the _base section is merged first, then every non-reserved key whose
pattern matches the URL path, in stored iteration order. -/
def loadKnowledge (parseURL : String → Option (String × String))
    (files : String → RawFile) (url : String) : Option ResolvedKnowledge :=
  match domainOf parseURL url with
  | none => none
  | some domain =>
    match files domain with
    | RawFile.absent => none
    | RawFile.malformed => none
    | RawFile.valid knowledge =>
      let urlPath := extractPath parseURL url
      let r0 : ResolvedKnowledge :=
        { domain := match knowledge.domain with
            | some d => if d == "" then domain else d
            | none => domain
          url := url, path := urlPath }
      let r1 := match lookupA knowledge.sections "_base" with
        | some sec =>
            mergeKnowledge { r0 with matchedPatterns := r0.matchedPatterns ++ ["_base"] } sec
        | none => r0
      some (knowledge.sections.foldl (fun r ps =>
        if reservedKey ps.1 then r
        else if pathMatches urlPath ps.1 then
          mergeKnowledge { r with matchedPatterns := r.matchedPatterns ++ [ps.1] } ps.2
        else r) r1)

/-- Effective gotcha cap: config.knowledge max_gotchas_per_domain with the
JS or-default of 50 (absent or zero falls back to 50). -/
def effMaxGotchas (cfgMax : Option Nat) : Nat :=
  match cfgMax with
  | some n => if n = 0 then 50 else n
  | none => 50

/-- The empty section created by addGotcha for a missing pattern key. -/
def freshGotchaSection : KSection := { gotchas := some [] }

/-- Replace the gotcha list of the section stored under the given key. -/
def setSectionGotchas (sections : List (String × KSection)) (pattern : String)
    (gs : List String) : List (String × KSection) :=
  sections.map (fun p => if p.1 == pattern then (p.1, { p.2 with gotchas := some gs }) else p)

/-- Gotcha list of one section of a file state, as addGotcha reads it (missing
file, missing section and missing gotchas key all read as the empty list). -/
def sectionGotchas (file : RawFile) (pattern : String) : List String :=
  match file with
  | RawFile.valid k =>
      match lookupA k.sections pattern with
      | some sec => sec.gotchas.getD []
      | none => []
  | _ => []

/-- addGotcha from knowledge.js, over the file state of the URL's domain.
Returns the boolean result paired with the new file state; the error case
models the JSON.parse exception, which this function — unlike the other store
operations — does not catch. now is the ISO timestamp written to updated. -/
def addGotcha (parseURL : String → Option (String × String)) (cfgMax : Option Nat)
    (now : String) (file : RawFile) (url gotcha : String)
    (pattern : String := "_base") : Except String (Bool × RawFile) :=
  match domainOf parseURL url with
  | none => Except.ok (false, file)
  | some domain =>
    match file with
    | RawFile.malformed => Except.error "Unexpected token in JSON"
    | _ =>
      let knowledge : Knowledge :=
        match file with
        | RawFile.valid k => k
        | _ => { domain := some domain, updated := some now }
      let sections :=
        if hasKey knowledge.sections pattern then knowledge.sections
        else knowledge.sections ++ [(pattern, freshGotchaSection)]
      let gs :=
        match lookupA sections pattern with
        | some sec => sec.gotchas.getD []
        | none => []
      if gs.contains gotcha then Except.ok (false, file)
      else if effMaxGotchas cfgMax ≤ gs.length then Except.ok (false, file)
      else
        Except.ok (true, RawFile.valid
          { knowledge with
            updated := some now
            sections := setSectionGotchas sections pattern (gs ++ [gotcha]) })

/-- The shared body of addGotcha once the domain has parsed and the file state
has produced an in-memory record: the duplicate check, the cap check, and the
persisted update (a proof-side restatement used to reason about both the
created-fresh and the loaded record uniformly). -/
def addGotchaCore (cfgMax : Option Nat) (now : String) (file : RawFile)
    (k : Knowledge) (gotcha pattern : String) : Except String (Bool × RawFile) :=
  let gs := ((lookupA k.sections pattern).getD freshGotchaSection).gotchas.getD []
  if gs.contains gotcha then Except.ok (false, file)
  else if effMaxGotchas cfgMax ≤ gs.length then Except.ok (false, file)
  else
    Except.ok (true, RawFile.valid
      { k with
        updated := some now
        sections := setSectionGotchas
          (if hasKey k.sections pattern then k.sections
           else k.sections ++ [(pattern, freshGotchaSection)]) pattern
          (gs ++ [gotcha]) })

/-- Spread-merge of an element entry: fields present in the update override. -/
def mergeElemInfo (old new : ElemInfo) : ElemInfo :=
  { selector := new.selector.orElse (fun _ => old.selector)
    ref_name := new.ref_name.orElse (fun _ => old.ref_name)
    note := new.note.orElse (fun _ => old.note) }

/-- updateElement from knowledge.js: false when the domain does not parse, the
file is missing, or its JSON is malformed (caught); otherwise the element entry
of the _base section is spread-merged and the file rewritten. -/
def updateElement (parseURL : String → Option (String × String)) (now : String)
    (file : RawFile) (url name : String) (selectorInfo : ElemInfo) :
    Bool × RawFile :=
  match domainOf parseURL url with
  | none => (false, file)
  | some _ =>
    match file with
    | RawFile.absent => (false, file)
    | RawFile.malformed => (false, file)
    | RawFile.valid k =>
      let sections :=
        if hasKey k.sections "_base" then k.sections
        else k.sections ++ [("_base", {})]
      let sections := sections.map (fun p =>
        if p.1 == "_base" then
          let es := p.2.elements.getD []
          let merged := mergeElemInfo ((lookupA es name).getD {}) selectorInfo
          let es' :=
            if hasKey es name then
              es.map (fun q => if q.1 == name then (q.1, merged) else q)
            else es ++ [(name, merged)]
          (p.1, { p.2 with elements := some es' })
        else p)
      (true, RawFile.valid { k with updated := some now, sections := sections })

/-- Counter/date update of recordTaskResult. today is the date half of the ISO
timestamp. -/
def bumpTask (t : TaskInfo) (success : Bool) (today : String) : TaskInfo :=
  if success then
    { t with success_count := some (t.success_count.getD 0 + 1)
             last_success := some today }
  else
    { t with failure_count := some (t.failure_count.getD 0 + 1)
             last_failure := some today }

/-- Scan of recordTaskResult: the first section (in stored key order) whose
tasks map has the task name gets its entry bumped. -/
def bumpFirstTask (taskName : String) (success : Bool) (today : String) :
    List (String × KSection) → Option (List (String × KSection))
  | [] => none
  | (key, sec) :: rest =>
    match sec.tasks with
    | some ts =>
      if hasKey ts taskName then
        some ((key, { sec with tasks := some (ts.map (fun q =>
          if q.1 == taskName then (q.1, bumpTask q.2 success today) else q)) }) :: rest)
      else
        (bumpFirstTask taskName success today rest).map (fun r => (key, sec) :: r)
    | none =>
      (bumpFirstTask taskName success today rest).map (fun r => (key, sec) :: r)

/-- recordTaskResult from knowledge.js: false when the domain does not parse,
the file is missing or malformed (caught), or no section defines the task;
otherwise the first defining section's counters are bumped and persisted. -/
def recordTaskResult (parseURL : String → Option (String × String))
    (now today : String) (file : RawFile) (url taskName : String)
    (success : Bool) : Bool × RawFile :=
  match domainOf parseURL url with
  | none => (false, file)
  | some _ =>
    match file with
    | RawFile.absent => (false, file)
    | RawFile.malformed => (false, file)
    | RawFile.valid k =>
      match bumpFirstTask taskName success today k.sections with
      | some sections' =>
          (true, RawFile.valid { k with updated := some now, sections := sections' })
      | none => (false, file)

/-- getKnowledge from knowledge.js: the raw parsed record, null when the file
is missing or malformed (caught). -/
def getKnowledge (files : String → RawFile) (domain : String) : Option Knowledge :=
  match files domain with
  | RawFile.valid k => some k
  | _ => none

/-! ## Snapshot parser (sequence.js, parseSnapshot) -/

/-- The regex word class backslash-w: ASCII letters, digits and underscore. -/
def isWordChar (c : Char) : Bool :=
  ('a' ≤ c && c ≤ 'z') || ('A' ≤ c && c ≤ 'Z') || ('0' ≤ c && c ≤ '9') || c == '_'

/-- The regex whitespace class backslash-s of the JS engine. -/
def isJsSpace (c : Char) : Bool :=
  c == ' ' || c == '\t' || c == '\n' || c == '\r' || c == '\x0b' || c == '\x0c' ||
  c == '\u00A0' || c == '\u1680' || ('\u2000' ≤ c && c ≤ '\u200A') ||
  c == '\u2028' || c == '\u2029' || c == '\u202F' || c == '\u205F' ||
  c == '\u3000' || c == '\uFEFF'

/-- The regex dot without the s flag: anything but a line terminator. -/
def dotChar (c : Char) : Bool :=
  !(c == '\n' || c == '\r' || c == '\u2028' || c == '\u2029')

def isDigitChar (c : Char) : Bool :=
  '0' ≤ c && c ≤ '9'

/-- All splits of a list into a prefix of characters satisfying p and the rest,
longest prefix first: the order in which a greedy backtracking regex
quantifier over the class p explores its alternatives. -/
def greedySplits (p : Char → Bool) : List Char → List (List Char × List Char)
  | [] => [([], [])]
  | c :: cs =>
    (if p c then (greedySplits p cs).map (fun pr => (c :: pr.1, pr.2)) else []) ++
      [([], c :: cs)]

/-- The alternatives of an optional literal character, consuming first (greedy
question-mark quantifier). -/
def optChar (c : Char) : List Char → List (List Char)
  | [] => [[]]
  | d :: rest => if d = c then [rest, d :: rest] else [d :: rest]

/-- Is needle a contiguous substring of the haystack (String.includes). -/
def infixOfB (needle : List Char) : List Char → Bool
  | [] => needle.isEmpty
  | d :: t => needle.isPrefixOf (d :: t) || infixOfB needle t

/-- parseInt on a non-empty digit string. -/
def digitsToNat (ds : List Char) : Nat :=
  ds.foldl (fun n c => n * 10 + (c.toNat - '0'.toNat)) 0

/-- String.prototype.trim: strip leading and trailing whitespace. -/
def trimJs (cs : List Char) : List Char :=
  ((cs.dropWhile isJsSpace).reverse.dropWhile isJsSpace).reverse

/-- Match of the unanchored regex for the nth attribute at the start of the
list: literal bracket-n-t-h-equals, one or more digits, closing bracket. -/
def matchNthAt : List Char → Option Nat
  | '[' :: 'n' :: 't' :: 'h' :: '=' :: r =>
    let ds := r.takeWhile isDigitChar
    if ds.isEmpty then none
    else
      match r.dropWhile isDigitChar with
      | ']' :: _ => some (digitsToNat ds)
      | _ => none
  | _ => none

/-- First match of the nth-attribute regex anywhere in the attribute tail
(attrs.match scanning positions left to right). -/
def findNth : List Char → Option Nat
  | [] => none
  | c :: rest =>
    match matchNthAt (c :: rest) with
    | some n => some n
    | none => findNth rest

/-- The nth field of a parsed element: present only when the attribute tail
contains the [nth= marker; an unmatchable marker falls back to 0. -/
def nthOf (attrs : List Char) : Nat :=
  if infixOfB "[nth=".data attrs then (findNth attrs).getD 0 else 0

/-- One element of the parsed snapshot. -/
structure ParsedElement where
  role : String
  name : String
  ref : String
  nth : Nat
  disabled : Bool
deriving Repr, DecidableEq

/-- Match of one snapshot line against the element regex of parseSnapshot:
dash and space, the role word, optional spaces and quote, the name (non-quote
characters), optional quote and spaces, the bracketed ref of the letter e and
digits, and the attribute tail. Ordered backtracking mirrors the JS engine. -/
def parseLine (cs : List Char) : Option ParsedElement :=
  match cs with
  | '-' :: ' ' :: rest =>
    (greedySplits isWordChar rest).findSome? (fun pr =>
      if pr.1.isEmpty then none else
      (greedySplits isJsSpace pr.2).findSome? (fun pr2 =>
        (optChar '\"' pr2.2).findSome? (fun r3 =>
          (greedySplits (fun c => !(c == '\"')) r3).findSome? (fun pr4 =>
            (optChar '\"' pr4.2).findSome? (fun r5 =>
              (greedySplits isJsSpace r5).findSome? (fun pr6 =>
                match pr6.2 with
                | '[' :: 'r' :: 'e' :: 'f' :: '=' :: 'e' :: r7 =>
                  (greedySplits isDigitChar r7).findSome? (fun pr8 =>
                    if pr8.1.isEmpty then none else
                    match pr8.2 with
                    | ']' :: attrs =>
                      if attrs.all dotChar then
                        some {
                          role := String.mk (trimJs pr.1)
                          name := String.mk (trimJs pr4.1)
                          ref := String.mk ('e' :: pr8.1)
                          nth := nthOf attrs
                          disabled := infixOfB "[disabled]".data attrs }
                      else none
                    | _ => none)
                | _ => none))))))
  | _ => none

/-- output.split of the newline character. -/
def splitLines (cs : List Char) : List (List Char) :=
  cs.foldr (fun c acc =>
    if c = '\n' then [] :: acc
    else match acc with
      | h :: t => (c :: h) :: t
      | [] => [[c]]) [[]]

/-- parseSnapshot from sequence.js: every line matching the element shape, in
order of appearance. -/
def parseSnapshot (output : String) : List ParsedElement :=
  (splitLines output.data).filterMap parseLine

/-! ## Element resolver (sequence.js, findElement) -/

/-- A declarative element descriptor. -/
structure Target where
  role : Option String := none
  name : Option String := none
  name_contains : Option String := none
  nth : Option Nat := none
deriving Repr, DecidableEq

/-- toLowerCase modelled as per-character lowering (the locale-independent
simple case mapping; claims only exercise ASCII). -/
def toLowerList (cs : List Char) : List Char := cs.map Char.toLower

/-- Case-insensitive substring test: hay.toLowerCase().includes(sub.toLowerCase()). -/
def containsCI (hay sub : String) : Bool :=
  infixOfB (toLowerList sub.data) (toLowerList hay.data)

/-- The predicate of findElement, with the source's guard order and truthiness
(an absent or empty role/name/name_contains imposes no constraint; nth
constrains whenever present, including 0). -/
def elemMatches (t : Target) (el : ParsedElement) : Bool :=
  if strTruthy t.role && !(el.role == t.role.getD "") then false
  else if strTruthy t.name && !(el.name == t.name.getD "") then false
  else if strTruthy t.name_contains && !(containsCI el.name (t.name_contains.getD "")) then false
  else if t.nth.isSome && !(el.nth == t.nth.getD 0) then false
  else if el.disabled then false
  else true

/-- findElement from sequence.js: the first element satisfying the target. -/
def findElement (elements : List ParsedElement) (t : Target) : Option ParsedElement :=
  elements.find? (elemMatches t)

/-- findElementWithFallback from sequence.js: the primary target first, then
each fallback target in listed order. -/
def findElementWithFallback (elements : List ParsedElement) (t : Target)
    (fallbacks : List Target) : Option ParsedElement :=
  match findElement elements t with
  | some e => some e
  | none => fallbacks.findSome? (findElement elements)

/-! ## Variable interpolation (sequence.js, interpolate) -/

def lbrace : Char := Char.ofNat 123
def rbrace : Char := Char.ofNat 125

/-- A piece of the scanned value string: a literal character, or one variable
token (two opening braces, a non-empty identifier of word characters, two
closing braces). -/
inductive Chunk where
  | lit (c : Char)
  | tok (key : String)
deriving Repr, DecidableEq

/-- The global-regex scan of String.replace: at each position try to match a
variable token; on success consume it, otherwise emit one literal character
and move on. Fuel is an upper bound on the number of steps (each consumes at
least one character). -/
def lexInterpGo : Nat → List Char → List Chunk
  | 0, _ => []
  | _ + 1, [] => []
  | fuel + 1, c :: rest =>
    if c = lbrace then
      match rest with
      | c2 :: rest2 =>
        if c2 = lbrace then
          let ws := rest2.takeWhile isWordChar
          if ws.isEmpty then Chunk.lit c :: lexInterpGo fuel rest
          else
            match rest2.dropWhile isWordChar with
            | d1 :: d2 :: rest3 =>
              if d1 = rbrace ∧ d2 = rbrace then
                Chunk.tok (String.mk ws) :: lexInterpGo fuel rest3
              else Chunk.lit c :: lexInterpGo fuel rest
            | _ => Chunk.lit c :: lexInterpGo fuel rest
        else Chunk.lit c :: lexInterpGo fuel rest
      | [] => [Chunk.lit c]
    else Chunk.lit c :: lexInterpGo fuel rest

def lexInterp (cs : List Char) : List Chunk := lexInterpGo (cs.length + 1) cs

/-- First escaping pass: double every backslash. -/
def escBackslashes (cs : List Char) : List Char :=
  cs.foldr (fun c acc => if c = '\\' then '\\' :: '\\' :: acc else c :: acc) []

/-- Second escaping pass: a backslash before every double quote. -/
def escQuotes (cs : List Char) : List Char :=
  cs.foldr (fun c acc => if c = '\"' then '\\' :: '\"' :: acc else c :: acc) []

/-- The injection escaping applied to every substituted value. -/
def escapeVal (s : String) : String :=
  String.mk (escQuotes (escBackslashes s.data))

/-- Reassembly of the scanned chunks: literals verbatim, tokens replaced by the
escaped bound value; the first unbound token aborts with the error the source
throws. -/
def renderChunks (vars : String → Option String) :
    List Chunk → Except String (List Char)
  | [] => Except.ok []
  | Chunk.lit c :: rest => (renderChunks vars rest).map (fun out => c :: out)
  | Chunk.tok key :: rest =>
    match vars key with
    | none => Except.error ("Missing variable: " ++ key)
    | some v => (renderChunks vars rest).map (fun out => (escapeVal v).data ++ out)

/-- interpolate from sequence.js. The bound vars are given in string form
(the source applies String to the bound value before escaping). An empty input
is returned unchanged by the falsiness guard. -/
def interpolate (s : String) (vars : String → Option String) :
    Except String String :=
  if s == "" then Except.ok s
  else (renderChunks vars (lexInterp s.data)).map String.mk

/-- The variable keys referenced by a scanned value, in order. -/
def chunkKeys : List Chunk → List String
  | [] => []
  | Chunk.lit _ :: rest => chunkKeys rest
  | Chunk.tok key :: rest => key :: chunkKeys rest

/-- Reference substitution of a fully bound chunk list. -/
def substitutedText (vars : String → Option String) : List Chunk → List Char
  | [] => []
  | Chunk.lit c :: rest => c :: substitutedText vars rest
  | Chunk.tok key :: rest =>
      (escapeVal ((vars key).getD "")).data ++ substitutedText vars rest

/-! ## Sequence documents and the action layer (sequence.js) -/

/-- One step of a sequence document. -/
structure Action where
  action : String
  target : Option Target := none
  fallback_targets : Option (List Target) := none
  value : Option String := none
  url : Option String := none
  direction : Option String := none
  amount : Option Nat := none
  key : Option String := none
  path : Option String := none
  duration : Option Nat := none
  description : Option String := none
deriving Repr, DecidableEq

/-- The JS numeric or-default (x || dflt): absent and 0 fall back. -/
def numOr (x : Option Nat) (dflt : Nat) : Nat :=
  match x with
  | some n => if n = 0 then dflt else n
  | none => dflt

/-- The JS string or-default (x || dflt): absent and "" fall back. -/
def strOr (x : Option String) (dflt : String) : String :=
  match x with
  | some s => if s == "" then dflt else s
  | none => dflt

/-- The JS x || undefined: an empty string becomes absent. -/
def strOpt (x : Option String) : Option String :=
  match x with
  | some s => if s == "" then none else some s
  | none => none

/-- The browser-session call issued by one executeAction dispatch. -/
inductive BrowserCmd where
  | click (ref : String)
  | type (ref : String) (value : String)
  | fill (ref : String) (value : String)
  | scroll (direction : String) (amount : Nat)
  | keypress (key : String)
  | screenshot (path : Option String)
  | open (url : String)
  | sleep (ms : Nat)
deriving Repr, DecidableEq

/-- The command construction of executeAction: which browser call a step
issues, given the current parsed elements and bound vars. Interpolation
is applied to the value of type/fill and to the navigate url only; click
resolves its target without touching the vars. A missing target models
the TypeError the source would throw, and a missing value/url reaching the
template literal stringifies as the text undefined. The exact not-found
message (the source embeds JSON.stringify of the target) is abbreviated. -/
def renderAction (a : Action) (vars : String → Option String)
    (elements : List ParsedElement) : Except String BrowserCmd :=
  if a.action == "click" then
    match a.target with
    | none => Except.error "TypeError: Cannot read properties of undefined"
    | some t =>
      match findElementWithFallback elements t (a.fallback_targets.getD []) with
      | none => Except.error "Element not found"
      | some el => Except.ok (BrowserCmd.click ("@" ++ el.ref))
  else if a.action == "type" then
    match a.target with
    | none => Except.error "TypeError: Cannot read properties of undefined"
    | some t =>
      match findElementWithFallback elements t (a.fallback_targets.getD []) with
      | none => Except.error "Element not found"
      | some el =>
        (interpolate (a.value.getD "undefined") vars).map
          (fun v => BrowserCmd.type ("@" ++ el.ref) v)
  else if a.action == "fill" then
    match a.target with
    | none => Except.error "TypeError: Cannot read properties of undefined"
    | some t =>
      match findElementWithFallback elements t (a.fallback_targets.getD []) with
      | none => Except.error "Element not found"
      | some el =>
        (interpolate (a.value.getD "undefined") vars).map
          (fun v => BrowserCmd.fill ("@" ++ el.ref) v)
  else if a.action == "scroll" then
    Except.ok (BrowserCmd.scroll (strOr a.direction "down") (numOr a.amount 500))
  else if a.action == "keypress" then
    Except.ok (BrowserCmd.keypress (a.key.getD "undefined"))
  else if a.action == "screenshot" then
    Except.ok (BrowserCmd.screenshot (strOpt a.path))
  else if a.action == "navigate" then
    (interpolate (a.url.getD "undefined") vars).map BrowserCmd.open
  else if a.action == "wait" then
    Except.ok (BrowserCmd.sleep (numOr a.duration 1000))
  else Except.error ("Unknown action: " ++ a.action)

/-- One acceptance criterion of a verification spec: a text_contains criterion
or a structural target (the extra fields are the ones findElement reads). -/
structure VTarget where
  text_contains : Option String := none
  role : Option String := none
  name : Option String := none
  name_contains : Option String := none
  nth : Option Nat := none
deriving Repr, DecidableEq

/-- The projection of a verification criterion to the fields findElement
reads. -/
def toTarget (t : VTarget) : Target :=
  { role := t.role, name := t.name, name_contains := t.name_contains, nth := t.nth }

/-- The verification block of a sequence document. -/
structure Verification where
  wait_for : Option VTarget := none
  fallback_wait_for : Option (List VTarget) := none
  timeout : Option Nat := none
  required : Option Bool := none
deriving Repr, DecidableEq

/-- One declared variable of a sequence document. -/
structure VarSpec where
  type : Option String := none
  required : Option Bool := none
  description : Option String := none
deriving Repr, DecidableEq

structure Precond where
  url_pattern : Option String := none
deriving Repr, DecidableEq

/-- A sequence document, as runSequence reads it after loadSequence has parsed
the file (file lookup is I/O and out of the model). -/
structure SequenceDoc where
  name : String := ""
  steps : Option (List Action) := none
  actions : Option (List Action) := none
  vars : Option (List (String × VarSpec)) := none
  preconditions : Option Precond := none
  verification : Option Verification := none
deriving Repr, DecidableEq

/-- sequence.steps || sequence.actions || [] (an empty array is truthy). -/
def getSteps (seq : SequenceDoc) : List Action :=
  match seq.steps with
  | some l => l
  | none => seq.actions.getD []

/-- The up-front failure message for a missing required variable. -/
def missingVarMsg (key : String) (d : Option String) : String :=
  "Missing required variable: " ++ key ++
    (match d with
     | some s => if s == "" then "" else " — " ++ s
     | none => "")

/-- The first declared required variable the caller did not supply. -/
def firstMissingRequired (seq : SequenceDoc) (vars : String → Option String) :
    Option (String × Option String) :=
  (seq.vars.getD []).findSome? (fun kv =>
    if boolTruthy kv.2.required && (vars kv.1).isNone then
      some (kv.1, kv.2.description)
    else none)

/-! ## The run loop (sequence.js, runSequence) -/

/-- The configuration slice runSequence reads. -/
structure RunConfig where
  retry_on_failure : Bool := false
  max_retries : Option Nat := none
deriving Repr, DecidableEq

/-- config.sequences max_retries || 2. -/
def effMaxRetries (cfg : RunConfig) : Nat := numOr cfg.max_retries 2

/-- The external browser process: exec gives the outcome of executeAction for
(step index, attempt index, current elements) — none is success, some is the
thrown error's message (attempt 0 is the main try, attempt r the r-th retry);
snaps gives the raw text of the n-th snapshot call of the run, or the error
a failed snapshot throws. Each (step, attempt) pair and each snapshot index
occurs at most once in a run, so any concrete execution induces such an
environment. -/
structure Env where
  exec : Nat → Nat → List ParsedElement → Option String
  snaps : Nat → Except String String

/-- One entry of the result trace. -/
structure StepEntry where
  step : Nat
  action : String
  status : String
  description : String
  error : Option String := none
deriving Repr, DecidableEq

/-- The result object of runSequence. -/
structure RunResult where
  success : Bool
  steps : List StepEntry
  error : Option String := none
deriving Repr, DecidableEq

/-- Outcome of the step loop: an early failure return, or fall-through with
the accumulated entries, current elements and snapshot counter. -/
inductive LoopOut where
  | failed (entries : List StepEntry) (error : String)
  | done (entries : List StepEntry) (els : List ParsedElement) (ctr : Nat)
deriving Repr, DecidableEq

/-- Prepend a trace entry to the loop outcome. -/
def LoopOut.cons (e : StepEntry) : LoopOut → LoopOut
  | LoopOut.failed entries err => LoopOut.failed (e :: entries) err
  | LoopOut.done entries els ctr => LoopOut.done (e :: entries) els ctr

/-- Prepend a list of trace entries to the loop outcome. -/
def consAll (es : List StepEntry) (o : LoopOut) : LoopOut :=
  es.foldr LoopOut.cons o

/-- Stand-in for JSON.stringify(step.target) in the step description (claims
do not depend on its exact text). -/
def targetRepr (t : Target) : String :=
  "target " ++ t.role.getD "" ++ " " ++ t.name.getD "" ++ " " ++
    t.name_contains.getD ""

/-- step.description || default description. -/
def descOf (a : Action) : String :=
  match a.description with
  | some d =>
      if d == "" then
        a.action ++ " " ++ (match a.target with | some t => targetRepr t | none => "")
      else d
  | none =>
      a.action ++ " " ++ (match a.target with | some t => targetRepr t | none => "")

def okEntry (i : Nat) (a : Action) : StepEntry :=
  { step := i, action := a.action, status := "ok", description := descOf a }

def failEntry (i : Nat) (a : Action) (e : String) : StepEntry :=
  { step := i, action := a.action, status := "failed", description := descOf a,
    error := some e }

def retryEntry (i : Nat) (a : Action) : StepEntry :=
  { step := i, action := a.action, status := "ok (retry)", description := descOf a }

/-- The DOM-mutating actions after which the snapshot is refreshed. -/
def isMutating (action : String) : Bool :=
  action == "click" || action == "type" || action == "fill" || action == "navigate"

/-- The retry loop of a failed step: each attempt re-snapshots (a snapshot
error is caught and counts as a failed attempt) and re-executes; the first
success returns the elements of its pre-attempt snapshot and the next counter;
exhausted fuel returns none. Retry error messages are discarded by the source. -/
def retryLoop (env : Env) (i : Nat) : Nat → Nat → Nat → Option (List ParsedElement × Nat)
  | 0, _, _ => none
  | fuel + 1, attempt, ctr =>
    match env.snaps ctr with
    | Except.error _ => retryLoop env i fuel (attempt + 1) (ctr + 1)
    | Except.ok raw =>
      match env.exec i attempt (parseSnapshot raw) with
      | none => some (parseSnapshot raw, ctr + 1)
      | some _ => retryLoop env i fuel (attempt + 1) (ctr + 1)

/-- The step loop of runSequence: execute each step against the current
elements; on success push ok and — for a DOM-mutating action — refresh the
snapshot, tolerating a refresh failure; on failure push failed, then (with
retry enabled) run the retry loop, pushing ok (retry) and continuing without
any further refresh on success, or returning the failure result naming the
step index with the first attempt's error. -/
def runSteps (env : Env) (cfg : RunConfig) :
    List Action → Nat → List ParsedElement → Nat → LoopOut
  | [], _, els, ctr => LoopOut.done [] els ctr
  | a :: rest, i, els, ctr =>
    match env.exec i 0 els with
    | none =>
      if isMutating a.action then
        match env.snaps ctr with
        | Except.ok raw =>
            LoopOut.cons (okEntry i a)
              (runSteps env cfg rest (i + 1) (parseSnapshot raw) (ctr + 1))
        | Except.error _ =>
            LoopOut.cons (okEntry i a) (runSteps env cfg rest (i + 1) els (ctr + 1))
      else LoopOut.cons (okEntry i a) (runSteps env cfg rest (i + 1) els ctr)
    | some e =>
      if cfg.retry_on_failure then
        match retryLoop env i (effMaxRetries cfg) 1 ctr with
        | some elsCtr =>
            LoopOut.cons (failEntry i a e) (LoopOut.cons (retryEntry i a)
              (runSteps env cfg rest (i + 1) elsCtr.1 elsCtr.2))
        | none =>
            LoopOut.failed [failEntry i a e]
              ("Step " ++ toString i ++ " failed: " ++ e)
      else
        LoopOut.failed [failEntry i a e]
          ("Step " ++ toString i ++ " failed: " ++ e)

/-- verification.timeout || 5000. -/
def effTimeout (v : Verification) : Nat := numOr v.timeout 5000

/-- Math.ceil(timeout / interval) with the fixed 500ms interval. -/
def maxAttemptsOf (v : Verification) : Nat := (effTimeout v + 499) / 500

/-- The acceptance criteria: wait_for if present, then fallback_wait_for. -/
def verifyTargets (v : Verification) : List VTarget :=
  (match v.wait_for with | some t => [t] | none => []) ++ v.fallback_wait_for.getD []

/-- One criterion against one snapshot: a truthy text_contains is a
case-insensitive substring test on the raw text, anything else is structural
matching of the parsed elements. -/
def criterionOk (t : VTarget) (raw : String) : Bool :=
  if strTruthy t.text_contains then containsCI raw (t.text_contains.getD "")
  else (findElement (parseSnapshot raw) (toTarget t)).isSome

/-- The polling loop of verifySuccess; a snapshot error here is uncaught and
propagates out of runSequence. Returns the number of polls taken and whether
a criterion was satisfied. -/
def verifyGo (env : Env) (targets : List VTarget) :
    Nat → Nat → Nat → Except String (Nat × Bool)
  | 0, _, polls => Except.ok (polls, false)
  | fuel + 1, ctr, polls =>
    match env.snaps ctr with
    | Except.error e => Except.error e
    | Except.ok raw =>
      if targets.any (fun t => criterionOk t raw) then Except.ok (polls + 1, true)
      else verifyGo env targets fuel (ctr + 1) (polls + 1)

/-- verifySuccess from sequence.js, starting at snapshot counter ctr: no
criteria verify immediately with zero polls; otherwise poll up to the attempt
budget, and an exhausted budget verifies only a spec marked required === false. -/
def verifyRun (env : Env) (v : Verification) (ctr : Nat) : Except String (Nat × Bool) :=
  let targets := verifyTargets v
  if targets.isEmpty then Except.ok (0, true)
  else
    match verifyGo env targets (maxAttemptsOf v) ctr 0 with
    | Except.error e => Except.error e
    | Except.ok pf => Except.ok (pf.1, pf.2 || (v.required == some false))

/-- runSequence from sequence.js, over a loaded sequence document: required
vars are checked first; a truthy precondition url_pattern consumes one
(ignored, error-tolerant) snapshot; the initial snapshot failure aborts with a
descriptive error; then the step loop runs, and on fall-through the declared
verification decides the result. The Except.error case is an exception the
source does not catch (a snapshot failure inside verifySuccess). -/
def runSequence (env : Env) (cfg : RunConfig) (seq : SequenceDoc)
    (vars : String → Option String) : Except String RunResult :=
  match firstMissingRequired seq vars with
  | some kd =>
      Except.ok { success := false, steps := [], error := some (missingVarMsg kd.1 kd.2) }
  | none =>
    let ctr0 : Nat :=
      match seq.preconditions with
      | some p => if strTruthy p.url_pattern then 1 else 0
      | none => 0
    match env.snaps ctr0 with
    | Except.error e =>
        Except.ok { success := false, steps := [],
                    error := some ("Failed to get initial snapshot: " ++ e) }
    | Except.ok raw =>
      match runSteps env cfg (getSteps seq) 0 (parseSnapshot raw) (ctr0 + 1) with
      | LoopOut.failed entries err =>
          Except.ok { success := false, steps := entries, error := some err }
      | LoopOut.done entries _ ctr =>
        match seq.verification with
        | some v =>
          match verifyRun env v ctr with
          | Except.error e => Except.error e
          | Except.ok pf =>
            if pf.2 then Except.ok { success := true, steps := entries }
            else
              Except.ok { success := false, steps := entries,
                          error := some "Sequence verification failed" }
        | none => Except.ok { success := true, steps := entries }

/-- The ok entries of a run of consecutive first-attempt successes. -/
def okEntries (i : Nat) : List Action → List StepEntry
  | [] => []
  | a :: rest => okEntry i a :: okEntries (i + 1) rest

/-- The claim that every ultimately-successful DOM-mutating step is followed
by a settle-and-refresh before the next step, including a step that succeeds
on its first retry: after the retry's success the engine would take one more
snapshot and hand its parse to the continuation. Stated from the spec's words,
to be compared with the source's runSteps. -/
def refreshAfterRetryClaim : Prop :=
  ∀ (env : Env) (cfg : RunConfig) (a : Action) (rest : List Action)
    (i ctr : Nat) (els : List ParsedElement) (e : String) (raws : Nat → String),
    isMutating a.action = true →
    cfg.retry_on_failure = true →
    (∀ n, env.snaps n = Except.ok (raws n)) →
    env.exec i 0 els = some e →
    (∀ els', env.exec i 1 els' = none) →
    1 ≤ effMaxRetries cfg →
    runSteps env cfg (a :: rest) i els ctr =
      LoopOut.cons (failEntry i a e) (LoopOut.cons (retryEntry i a)
        (runSteps env cfg rest (i + 1) (parseSnapshot (raws (ctr + 1))) (ctr + 2)))

deriving instance DecidableEq for Except

/-! ## Concrete instances used by witnesses and counterexamples -/

/-- A concrete URL-parser oracle: the WHATWG parse of the one URL the concrete
examples use (hostname ex.com, pathname /x/1). -/
def parseURLex : String → Option (String × String) :=
  fun u => if u == "https://ex.com/x/1" then some ("ex.com", "/x/1") else none

/-- Base section of the concrete knowledge record: one gotcha, one task. -/
def secBaseEx : KSection :=
  { gotchas := some ["A"], tasks := some [("t", { note := some "base" })] }

/-- Pattern section of the concrete knowledge record: one gotcha, one task of
the same name. -/
def secPatEx : KSection :=
  { gotchas := some ["B"], tasks := some [("t", { note := some "patt" })] }

/-- The concrete stored record: _base first, then the pattern /x/*. -/
def knowEx : Knowledge :=
  { domain := some "ex.com", updated := some "2026-01-01",
    sections := [("_base", secBaseEx), ("/x/*", secPatEx)] }

/-- A file system holding exactly the concrete record. -/
def filesEx : String → RawFile :=
  fun d => if d == "ex.com" then RawFile.valid knowEx else RawFile.absent

/-- The value loadKnowledge produces on the concrete record and URL. -/
def resEx : ResolvedKnowledge :=
  { domain := "ex.com", url := "https://ex.com/x/1", path := "/x/1",
    elements := [], editor := none,
    tasks := [("t", { note := some "patt" })],
    gotchas := ["A", "B"],
    matchedPatterns := ["_base", "/x/*"], description := none }

/-- A file system in which every domain file is unparseable. -/
def filesBad : String → RawFile := fun _ => RawFile.malformed

/-- A click step with a bare role target. -/
def actClick : Action := { action := "click", target := some { role := some "button" } }

/-- Snapshot texts of the retry scenario: snapshot 0 is empty, snapshot 1
shows button A, later snapshots show button B. -/
def rawsRetry : Nat → String :=
  fun n => if n == 0 then "" else
    if n == 1 then "- button \"A\" [ref=e1]" else "- button \"B\" [ref=e2]"

/-- A concrete environment for the retry scenarios: step 0 fails its first
attempt and succeeds afterwards, every other execution succeeds; snapshots
always succeed with the rawsRetry texts. -/
def envRetry : Env :=
  { exec := fun i attempt _ => if i == 0 && attempt == 0 then some "boom" else none
    snaps := fun n => Except.ok (rawsRetry n) }

/-- A concrete environment in which every execution attempt fails. -/
def envFail : Env :=
  { exec := fun _ _ _ => some "boom", snaps := fun _ => Except.ok "" }

/-- A concrete environment in which every execution succeeds and every
snapshot is empty. -/
def envOk : Env :=
  { exec := fun _ _ _ => none, snaps := fun _ => Except.ok "" }

/-- Retry-enabled configuration with the default retry budget. -/
def cfgRetry : RunConfig := { retry_on_failure := true }

/-- Retry-disabled configuration. -/
def cfgNoRetry : RunConfig := { retry_on_failure := false }

/-- A sequence of two click steps, no declared variables or verification. -/
def seqTwoClicks : SequenceDoc := { name := "s", steps := some [actClick, actClick] }

/-- A sequence of one click step with a required text verification. -/
def seqVerified : SequenceDoc :=
  { name := "v", steps := some [actClick],
    verification := some { wait_for := some { text_contains := some "Welcome" } } }

/-- The same sequence with the verification marked non-required. -/
def seqVerifiedOptional : SequenceDoc :=
  { name := "v", steps := some [actClick],
    verification := some { wait_for := some { text_contains := some "Welcome" },
                           required := some false } }

/-- A disabled button, for the disabled-never-matches instance. -/
def elDis : ParsedElement :=
  { role := "button", name := "x", ref := "e9", nth := 0, disabled := true }

/-- A binding assigning a value (holding a quote and a backslash) to user. -/
def varsW : String → Option String :=
  fun k => if k == "user" then some "x\"y\\z" else none

/-- The empty binding. -/
def varsNone : String → Option String := fun _ => none

/-- The element of the findElement counterexample: an enabled button whose
name is the non-empty string x. -/
def elBtnX : ParsedElement :=
  { role := "button", name := "x", ref := "e1", nth := 0, disabled := false }

/-! ## Theorems: pattern matching (C2) -/

theorem tokMatch_star_append {ts : List PatTok} {s : List Char} (seg : List Char)
    (hne : seg ≠ []) (hns : ∀ c ∈ seg, c ≠ '/') (h : tokMatch ts s = true) :
    tokMatch (PatTok.star :: ts) (seg ++ s) = true := by
  induction seg with
  | nil => exact absurd rfl hne
  | cons c rest ih =>
    have hc : (c == '/') = false := by
      simp only [beq_eq_false_iff_ne]
      exact hns c (by simp)
    cases rest with
    | nil =>
      have heq : tokMatch (PatTok.star :: ts) ([c] ++ s) =
          (!(c == '/') && (tokMatch ts s || tokMatch (PatTok.star :: ts) s)) := rfl
      rw [heq, h, hc]
      simp
    | cons d rest' =>
      have hrec := ih (by simp) (fun x hx => hns x (List.mem_cons_of_mem c hx))
      have heq : tokMatch (PatTok.star :: ts) ((c :: d :: rest') ++ s) =
          (!(c == '/') && (tokMatch ts ((d :: rest') ++ s) ||
            tokMatch (PatTok.star :: ts) ((d :: rest') ++ s))) := rfl
      rw [heq, hrec, hc]
      simp

theorem pattern_sound : ∀ (s pat : List Char),
    tokMatch (compilePattern pat) s = true → PatternMatchSpec pat s := by
  intro s
  induction s with
  | nil =>
    intro pat h
    cases pat with
    | nil => exact PatternMatchSpec.nil
    | cons c pat' =>
      exfalso
      by_cases hc : c = '*' <;> simp [compilePattern, hc, tokMatch] at h
  | cons d s' ih =>
    intro pat h
    cases pat with
    | nil => simp [compilePattern, tokMatch] at h
    | cons c pat' =>
      by_cases hc : c = '*'
      · subst hc
        simp only [compilePattern, List.map_cons, if_pos rfl, tokMatch,
          Bool.and_eq_true, Bool.or_eq_true, Bool.not_eq_true',
          beq_eq_false_iff_ne] at h
        obtain ⟨hd, hcase⟩ := h
        cases hcase with
        | inl h1 =>
          have := ih pat' h1
          exact PatternMatchSpec.star [d] (by simp) (by simpa using hd) this
        | inr h2 =>
          have hrec := ih ('*' :: pat') (by simpa [compilePattern] using h2)
          cases hrec with
          | lit hne _ => exact absurd rfl hne
          | star seg hne2 hns2 htail =>
            exact PatternMatchSpec.star (d :: seg) (by simp)
              (by
                intro x hx
                rcases List.mem_cons.mp hx with h | h
                · subst h; exact hd
                · exact hns2 x h) htail
      · simp only [compilePattern, List.map_cons, if_neg hc, tokMatch,
          Bool.and_eq_true, beq_iff_eq] at h
        obtain ⟨hcd, htail⟩ := h
        subst hcd
        exact PatternMatchSpec.lit hc (ih pat' htail)

theorem pattern_complete {pat s : List Char} (h : PatternMatchSpec pat s) :
    tokMatch (compilePattern pat) s = true := by
  induction h with
  | nil => rfl
  | lit hne _ ih =>
    simpa [compilePattern, hne, tokMatch] using ih
  | star seg hne hns _ ih =>
    have := tokMatch_star_append seg hne hns ih
    simpa [compilePattern] using this

/-- C2: pathMatches returns true when the two strings are equal; otherwise it
returns true exactly when the whole path matches the pattern with every star
interpreted as one or more non-slash characters and all other characters taken
literally; the three examples from the spec hold. -/
theorem pathMatches_spec :
    (∀ urlPath pattern : String,
      pathMatches urlPath pattern = true ↔
        (urlPath = pattern ∨ PatternMatchSpec pattern.data urlPath.data)) ∧
    pathMatches "/user/123/profile" "/user/*/profile" = true ∧
    pathMatches "/user/profile" "/user/*/profile" = false ∧
    pathMatches "/a/b/c" "/*/*/c" = true := by
  refine ⟨fun urlPath pattern => ?_, by decide, by decide, by decide⟩
  constructor
  · intro h
    by_cases he : urlPath = pattern
    · exact Or.inl he
    · refine Or.inr (pattern_sound _ _ ?_)
      simpa [pathMatches, he] using h
  · intro h
    rcases h with h | h
    · simp [pathMatches, h]
    · by_cases he : urlPath = pattern
      · simp [pathMatches, he]
      · simpa [pathMatches, he] using pattern_complete h

/-- C2 witness: the general equivalence instantiated at a concrete path and
pattern. -/
theorem pathMatches_spec_witness :
    pathMatches "/user/123/profile" "/user/*/profile" = true ↔
      ("/user/123/profile" = "/user/*/profile" ∨
        PatternMatchSpec "/user/*/profile".data "/user/123/profile".data) :=
  pathMatches_spec.1 "/user/123/profile" "/user/*/profile"

/-! ## Lemmas on the association-list object model -/

theorem lookupA_nil {α : Type} (k : String) : lookupA ([] : List (String × α)) k = none :=
  rfl

theorem lookupA_cons {α : Type} (a : String) (b : α) (t : List (String × α))
    (k : String) :
    lookupA ((a, b) :: t) k = if a = k then some b else lookupA t k := by
  by_cases h : a = k
  · rw [if_pos h]
    have hp : ((fun p : String × α => p.1 == k) (a, b)) = true := by simpa using h
    rw [lookupA, List.find?_cons_of_pos (p := fun p : String × α => p.1 == k) _ hp]
    rfl
  · rw [if_neg h]
    have hne : ¬((fun p : String × α => p.1 == k) (a, b)) = true := by simpa using h
    rw [lookupA, List.find?_cons_of_neg (p := fun p : String × α => p.1 == k) _ hne]
    rfl

theorem hasKey_cons {α : Type} (a : String) (b : α) (t : List (String × α))
    (k : String) :
    hasKey ((a, b) :: t) k = ((a == k) || hasKey t k) := by
  simp [hasKey]

theorem lookupA_of_hasKey_false {α : Type} {l : List (String × α)} {k : String}
    (h : hasKey l k = false) : lookupA l k = none := by
  induction l with
  | nil => rfl
  | cons p t ih =>
    obtain ⟨a, b⟩ := p
    rw [hasKey_cons, Bool.or_eq_false_iff] at h
    rw [lookupA_cons, if_neg (by simpa using h.1)]
    exact ih h.2

theorem lookupA_map_replace {α : Type} (l : List (String × α)) (k' : String)
    (v : α) (k : String) :
    lookupA (l.map (fun p => if p.1 == k' then (p.1, v) else p)) k =
      if k = k' then (if hasKey l k' then some v else none) else lookupA l k := by
  induction l with
  | nil => by_cases h : k = k' <;> simp [lookupA, hasKey, h]
  | cons p t ih =>
    obtain ⟨a, b⟩ := p
    by_cases hp : a = k'
    · simp only [List.map_cons, if_pos (show ((a, b).1 == k') = true by simpa using hp)]
      by_cases hk : k = k'
      · subst hk
        rw [lookupA_cons, if_pos (hp.trans rfl ▸ hp ▸ rfl)]
        rw [if_pos rfl, hasKey_cons, if_pos]
        simp [hp]
      · have hak : ¬a = k := fun hc => hk (hp ▸ hc ▸ rfl)
        rw [lookupA_cons, if_neg hak, ih, if_neg hk, if_neg hk,
          lookupA_cons, if_neg hak]
    · simp only [List.map_cons, if_neg (show ¬((a, b).1 == k') = true by simpa using hp)]
      rw [lookupA_cons, lookupA_cons, hasKey_cons,
        (show ((a == k') : Bool) = false by simpa using hp), Bool.false_or]
      by_cases hak : a = k
      · have hk : ¬k = k' := fun hc => hp (hak ▸ hc)
        rw [if_pos hak, if_pos hak, if_neg hk]
      · rw [if_neg hak, if_neg hak, ih]

theorem lookupA_append_single {α : Type} (l : List (String × α)) (k' k : String)
    (v : α) :
    lookupA (l ++ [(k', v)]) k =
      orElseO (lookupA l k) (if k = k' then some v else none) := by
  induction l with
  | nil =>
    rw [List.nil_append, lookupA_nil, lookupA_cons]
    by_cases h : k = k'
    · rw [if_pos (h ▸ rfl), if_pos h]
      rfl
    · rw [if_neg (fun hc => h hc.symm), if_neg h]
      rfl
  | cons p t ih =>
    obtain ⟨a, b⟩ := p
    rw [List.cons_append, lookupA_cons, lookupA_cons]
    by_cases hak : a = k
    · rw [if_pos hak, if_pos hak]
      rfl
    · rw [if_neg hak, if_neg hak, ih]

/-- One step of the Object.assign fold: the assigned key now maps to the new
value, every other key is untouched. -/
theorem lookupA_assign_step {α : Type} (t : List (String × α)) (k' : String)
    (v : α) (k : String) :
    lookupA (if hasKey t k' then
        t.map (fun p => if p.1 == k' then (p.1, v) else p)
      else t ++ [(k', v)]) k =
      if k = k' then some v else lookupA t k := by
  by_cases h : hasKey t k'
  · rw [if_pos h, lookupA_map_replace, if_pos h]
  · rw [Bool.not_eq_true] at h
    rw [if_neg (by simp [h]), lookupA_append_single]
    have hnone := lookupA_of_hasKey_false (l := t) (k := k') h
    by_cases hk : k = k'
    · subst hk
      rw [hnone, if_pos rfl]
      rfl
    · rw [if_neg hk, if_neg hk]
      cases hl : lookupA t k <;> rfl

theorem lookupA_assignAssoc {α : Type} (src : List (String × α))
    (hnd : (src.map Prod.fst).Nodup) (tgt : List (String × α)) (k : String) :
    lookupA (assignAssoc tgt src) k = orElseO (lookupA src k) (lookupA tgt k) := by
  induction src generalizing tgt with
  | nil => rfl
  | cons p t ih =>
    obtain ⟨k', v⟩ := p
    simp only [List.map_cons, List.nodup_cons] at hnd
    have hstep : assignAssoc tgt ((k', v) :: t) =
        assignAssoc (if hasKey tgt k' then
            tgt.map (fun q => if q.1 == k' then (q.1, v) else q)
          else tgt ++ [(k', v)]) t := by
      simp [assignAssoc, hasKey, List.foldl_cons]
    rw [hstep, ih hnd.2, lookupA_cons]
    by_cases hk : k = k'
    · subst hk
      have hnone : lookupA t k = none := by
        apply lookupA_of_hasKey_false
        simp only [hasKey, List.any_eq_false]
        intro q hq hcon
        exact hnd.1 (eq_of_beq hcon ▸ List.mem_map_of_mem Prod.fst hq)
      rw [hnone, lookupA_assign_step, if_pos rfl, if_pos rfl]
      rfl
    · rw [if_neg (show ¬(k' = k) from fun hc => hk hc.symm),
        lookupA_assign_step, if_neg hk]


theorem hasKey_eq_lookupA_isSome {α : Type} (l : List (String × α)) (k : String) :
    hasKey l k = (lookupA l k).isSome := by
  induction l with
  | nil => rfl
  | cons p t ih =>
    obtain ⟨a, b⟩ := p
    rw [hasKey_cons, lookupA_cons]
    by_cases h : a = k
    · simp [h]
    · simp only [(show ((a == k) : Bool) = false by simpa using h), Bool.false_or,
        if_neg h]
      exact ih

/-! ## Theorems: the Knowledge Store merge (C3) -/

theorem mergeKnowledge_proj (r : ResolvedKnowledge) (s : KSection) :
    (mergeKnowledge r s).elements = assignAssoc r.elements (s.elements.getD []) ∧
    (mergeKnowledge r s).tasks = assignAssoc r.tasks (s.tasks.getD []) ∧
    (mergeKnowledge r s).gotchas = r.gotchas ++ s.gotchas.getD [] ∧
    (mergeKnowledge r s).editor =
      (match s.editor with | some e => some e | none => r.editor) ∧
    (mergeKnowledge r s).description =
      (match s.description with
       | some d => if d == "" then r.description else some d
       | none => r.description) ∧
    (mergeKnowledge r s).matchedPatterns = r.matchedPatterns := by
  obtain ⟨es, ed, ts, gs, de⟩ := s
  cases de with
  | none =>
    cases es <;> cases ed <;> cases ts <;> cases gs <;>
      refine ⟨rfl, rfl, ?_, rfl, rfl, rfl⟩ <;> simp [mergeKnowledge]
  | some d =>
    by_cases hd : d = ""
    · subst hd
      cases es <;> cases ed <;> cases ts <;> cases gs <;>
        simp [mergeKnowledge, assignAssoc]
    · cases es <;> cases ed <;> cases ts <;> cases gs <;>
        simp [mergeKnowledge, assignAssoc, hd]

theorem foldPatterns_matchedPatterns (urlPath : String) :
    ∀ (l : List (String × KSection)) (r : ResolvedKnowledge),
    (l.foldl (fun r ps =>
        if reservedKey ps.1 then r
        else if pathMatches urlPath ps.1 then
          mergeKnowledge { r with matchedPatterns := r.matchedPatterns ++ [ps.1] } ps.2
        else r) r).matchedPatterns =
      r.matchedPatterns ++
        (l.filter (fun ps => !reservedKey ps.1 && pathMatches urlPath ps.1)).map
          Prod.fst := by
  intro l
  induction l with
  | nil => intro r; simp
  | cons p t ih =>
    intro r
    rw [List.foldl_cons]
    by_cases h1 : reservedKey p.1 = true
    · rw [if_pos h1, ih, List.filter_cons_of_neg (by simp [h1])]
    · rw [Bool.not_eq_true] at h1
      rw [if_neg (by simp [h1])]
      by_cases h2 : pathMatches urlPath p.1 = true
      · rw [if_pos h2, ih,
          (mergeKnowledge_proj { r with
            matchedPatterns := r.matchedPatterns ++ [p.1] } p.2).2.2.2.2.2,
          List.filter_cons_of_pos (by simp [h1, h2])]
        simp
      · rw [Bool.not_eq_true] at h2
        rw [if_neg (by simp [h2]), ih, List.filter_cons_of_neg (by simp [h1, h2])]

theorem loadKnowledge_matched (parseURL : String → Option (String × String))
    (files : String → RawFile) (url d : String) (k : Knowledge)
    (hd : domainOf parseURL url = some d) (hf : files d = RawFile.valid k) :
    ∃ res, loadKnowledge parseURL files url = some res ∧
      res.matchedPatterns =
        (if (lookupA k.sections "_base").isSome then ["_base"] else []) ++
        (k.sections.filter (fun ps =>
          !reservedKey ps.1 && pathMatches (extractPath parseURL url) ps.1)).map
          Prod.fst := by
  simp only [loadKnowledge, hd, hf]
  refine ⟨_, rfl, ?_⟩
  rw [foldPatterns_matchedPatterns]
  cases hb : lookupA k.sections "_base" with
  | none => simp
  | some sec =>
    rw [(mergeKnowledge_proj _ sec).2.2.2.2.2]
    simp

/-- C3 counterexample: on the claim's own example — a record whose base
section has gotchas [A] and whose pattern /x/* has gotchas [B], each also
declaring a task named t — loading a matching URL yields matchedPatterns
["_base", "/x/*"], not ["base", "/x/*"] as the claim states (the code pushes
the literal storage key _base), and the same-named task entry is overwritten
with the later section's value (one entry survives), not appended as a union. -/
theorem loadKnowledge_claim_counterexample :
    loadKnowledge parseURLex filesEx "https://ex.com/x/1" = some resEx ∧
    resEx.matchedPatterns ≠ ["base", "/x/*"] ∧
    secBaseEx.tasks = some [("t", { note := some "base" })] ∧
    resEx.tasks = [("t", { note := some "patt" })] := by
  exact ⟨by decide, by decide, by decide, by decide⟩

/-- C3 (amended): loadKnowledge merges the _base section first and then every
pattern section whose pattern matches the URL path, in stored iteration order
(matchedPatterns records the contributing keys, starting with the literal key
_base); later merges overwrite elements, tasks and editor entries with the
same key — tasks are key-unioned with later sections overwriting same-named
entries, like elements — replace the description only when the incoming
description is truthy (a present-but-empty string is skipped by the source's
guard), while gotchas are appended; on the
concrete example the result has gotchas [A, B] and matchedPatterns
["_base", "/x/*"]; the merge is a pure function of the record and iteration
order. -/
theorem loadKnowledge_merge_spec :
    (∀ r s, (mergeKnowledge r s).gotchas = r.gotchas ++ s.gotchas.getD []) ∧
    (∀ r s es k, s.elements = some es → (es.map Prod.fst).Nodup →
      lookupA (mergeKnowledge r s).elements k =
        orElseO (lookupA es k) (lookupA r.elements k)) ∧
    (∀ r s ts k, s.tasks = some ts → (ts.map Prod.fst).Nodup →
      lookupA (mergeKnowledge r s).tasks k =
        orElseO (lookupA ts k) (lookupA r.tasks k)) ∧
    (∀ r s, (mergeKnowledge r s).editor =
      (match s.editor with | some e => some e | none => r.editor)) ∧
    (∀ r s, (mergeKnowledge r s).description =
      (match s.description with
       | some d => if d == "" then r.description else some d
       | none => r.description)) ∧
    (∀ parseURL files url d k, domainOf parseURL url = some d →
      files d = RawFile.valid k →
      ∃ res, loadKnowledge parseURL files url = some res ∧
        res.matchedPatterns =
          (if (lookupA k.sections "_base").isSome then ["_base"] else []) ++
          (k.sections.filter (fun ps =>
            !reservedKey ps.1 && pathMatches (extractPath parseURL url) ps.1)).map
            Prod.fst) ∧
    (loadKnowledge parseURLex filesEx "https://ex.com/x/1" = some resEx ∧
      resEx.gotchas = ["A", "B"] ∧ resEx.matchedPatterns = ["_base", "/x/*"]) := by
  refine ⟨fun r s => (mergeKnowledge_proj r s).2.2.1,
    fun r s es k hes hnd => ?_, fun r s ts k hts hnd => ?_,
    fun r s => (mergeKnowledge_proj r s).2.2.2.1,
    fun r s => (mergeKnowledge_proj r s).2.2.2.2.1,
    fun parseURL files url d k hd hf =>
      loadKnowledge_matched parseURL files url d k hd hf,
    by decide, by decide, by decide⟩
  · rw [(mergeKnowledge_proj r s).1, hes]
    simp only [Option.getD_some]
    exact lookupA_assignAssoc es hnd r.elements k
  · rw [(mergeKnowledge_proj r s).2.1, hts]
    simp only [Option.getD_some]
    exact lookupA_assignAssoc ts hnd r.tasks k

/-- C3 witness: the general matchedPatterns law of the amended claim applied
to the concrete record, with its hypotheses discharged. -/
theorem loadKnowledge_merge_spec_witness :
    ∃ res, loadKnowledge parseURLex filesEx "https://ex.com/x/1" = some res ∧
      res.matchedPatterns =
        (if (lookupA knowEx.sections "_base").isSome then ["_base"] else []) ++
        (knowEx.sections.filter (fun ps =>
          !reservedKey ps.1 &&
            pathMatches (extractPath parseURLex "https://ex.com/x/1") ps.1)).map
          Prod.fst :=
  loadKnowledge_merge_spec.2.2.2.2.2.1 parseURLex filesEx "https://ex.com/x/1"
    "ex.com" knowEx (by decide) (by decide)

/-! ## Theorems: addGotcha (C1) -/

theorem lookupA_map_update {α : Type} (l : List (String × α)) (p : String)
    (f : α → α) (k : String) :
    lookupA (l.map (fun q => if q.1 == p then (q.1, f q.2) else q)) k =
      if k = p then (lookupA l p).map f else lookupA l k := by
  induction l with
  | nil => by_cases h : k = p <;> simp [lookupA_nil, h]
  | cons q t ih =>
    obtain ⟨a, b⟩ := q
    simp only [beq_iff_eq] at ih ⊢
    by_cases hap : a = p
    · subst hap
      by_cases hak : a = k
      · subst hak
        simp [lookupA_cons]
      · have hka : ¬k = a := fun hc => hak hc.symm
        simp [lookupA_cons, hak, hka, ih]
    · by_cases hak : a = k
      · subst hak
        have hkp : ¬a = p := hap
        simp [lookupA_cons, hap, hkp]
      · simp [lookupA_cons, hap, hak, ih]

theorem lookupA_setSectionGotchas (l : List (String × KSection)) (p : String)
    (gs : List String) (k : String) :
    lookupA (setSectionGotchas l p gs) k =
      if k = p then (lookupA l p).map (fun sec => { sec with gotchas := some gs })
      else lookupA l k :=
  lookupA_map_update l p (fun sec => { sec with gotchas := some gs }) k

theorem lookupA_ensure (l : List (String × KSection)) (p : String) :
    lookupA (if hasKey l p then l else l ++ [(p, freshGotchaSection)]) p =
      some ((lookupA l p).getD freshGotchaSection) := by
  by_cases h : hasKey l p
  · rw [if_pos h]
    rw [hasKey_eq_lookupA_isSome] at h
    cases hl : lookupA l p with
    | none => rw [hl] at h; simp at h
    | some sec => rfl
  · rw [Bool.not_eq_true] at h
    rw [if_neg (by simp [h]), lookupA_append_single,
      lookupA_of_hasKey_false h, if_pos rfl]
    rfl

theorem sectionGotchas_valid (k : Knowledge) (pattern : String) :
    sectionGotchas (RawFile.valid k) pattern =
      ((lookupA k.sections pattern).getD freshGotchaSection).gotchas.getD [] := by
  cases h : lookupA k.sections pattern <;>
    simp [sectionGotchas, h, freshGotchaSection]

theorem addGotcha_eq_core (parseURL : String → Option (String × String))
    (cfgMax : Option Nat) (now url gotcha pattern d : String) (file : RawFile)
    (k : Knowledge) (hd : domainOf parseURL url = some d)
    (hfk : (file = RawFile.absent ∧
        k = { domain := some d, updated := some now, sections := [] }) ∨
      file = RawFile.valid k) :
    addGotcha parseURL cfgMax now file url gotcha pattern =
      addGotchaCore cfgMax now file k gotcha pattern := by
  rcases hfk with ⟨hf, hk⟩ | hf
  · subst hf
    subst hk
    simp only [addGotcha, hd, addGotchaCore, lookupA_ensure]
  · subst hf
    simp only [addGotcha, hd, addGotchaCore, lookupA_ensure]

theorem addGotchaCore_spec (cfgMax : Option Nat) (now : String) (file : RawFile)
    (k : Knowledge) (gotcha pattern : String)
    (hgs : sectionGotchas file pattern =
      ((lookupA k.sections pattern).getD freshGotchaSection).gotchas.getD []) :
    (gotcha ∉ sectionGotchas file pattern →
      (sectionGotchas file pattern).length < effMaxGotchas cfgMax →
      ∃ k', addGotchaCore cfgMax now file k gotcha pattern =
          Except.ok (true, RawFile.valid k') ∧
        sectionGotchas (RawFile.valid k') pattern =
          sectionGotchas file pattern ++ [gotcha] ∧
        (sectionGotchas (RawFile.valid k') pattern).count gotcha = 1) ∧
    (gotcha ∈ sectionGotchas file pattern →
      addGotchaCore cfgMax now file k gotcha pattern = Except.ok (false, file)) ∧
    (effMaxGotchas cfgMax ≤ (sectionGotchas file pattern).length →
      gotcha ∉ sectionGotchas file pattern →
      addGotchaCore cfgMax now file k gotcha pattern = Except.ok (false, file)) := by
  refine ⟨?_, ?_, ?_⟩
  · intro hnm hlt
    rw [hgs] at hnm hlt
    have hc : (((lookupA k.sections pattern).getD
        freshGotchaSection).gotchas.getD []).contains gotcha = false := by
      cases hcc : (((lookupA k.sections pattern).getD
          freshGotchaSection).gotchas.getD []).contains gotcha
      · rfl
      · exact absurd (List.mem_of_elem_eq_true hcc) hnm
    have hcond : ¬((((lookupA k.sections pattern).getD
        freshGotchaSection).gotchas.getD []).contains gotcha = true) := by
      rw [hc]
      simp
    have hcap : ¬(effMaxGotchas cfgMax ≤
        (((lookupA k.sections pattern).getD
          freshGotchaSection).gotchas.getD []).length) := Nat.not_le.mpr hlt
    have hstep : addGotchaCore cfgMax now file k gotcha pattern =
        Except.ok (true, RawFile.valid
          { k with
            updated := some now
            sections := setSectionGotchas
              (if hasKey k.sections pattern then k.sections
               else k.sections ++ [(pattern, freshGotchaSection)]) pattern
              ((((lookupA k.sections pattern).getD
                freshGotchaSection).gotchas.getD []) ++ [gotcha]) }) := by
      simp only [addGotchaCore, if_neg hcond, if_neg hcap]
    have hsec : sectionGotchas (RawFile.valid
        { k with
          updated := some now
          sections := setSectionGotchas
            (if hasKey k.sections pattern then k.sections
             else k.sections ++ [(pattern, freshGotchaSection)]) pattern
            ((((lookupA k.sections pattern).getD
              freshGotchaSection).gotchas.getD []) ++ [gotcha]) }) pattern =
        (((lookupA k.sections pattern).getD
          freshGotchaSection).gotchas.getD []) ++ [gotcha] := by
      rw [sectionGotchas_valid]
      simp [lookupA_setSectionGotchas, lookupA_ensure]
    refine ⟨_, hstep, ?_, ?_⟩
    · rw [hsec, hgs]
    · rw [hsec, List.count_append, List.count_eq_zero_of_not_mem hnm]
      simp
  · intro hmem
    rw [hgs] at hmem
    have hc := List.elem_eq_true_of_mem hmem
    simp only [addGotchaCore, List.contains, hc, if_true]
  · intro hcap hnm
    rw [hgs] at hcap hnm
    have hc : (((lookupA k.sections pattern).getD
        freshGotchaSection).gotchas.getD []).contains gotcha = false := by
      cases hcc : (((lookupA k.sections pattern).getD
          freshGotchaSection).gotchas.getD []).contains gotcha
      · rfl
      · exact absurd (List.mem_of_elem_eq_true hcc) hnm
    simp only [addGotchaCore, hc, Bool.false_eq_true, if_false, if_pos hcap]

/-- C1: for a URL whose domain parses (truthily) and a well-formed file state,
addGotcha appends a new gotcha once to the addressed section's list and
persists it, creating the domain record when the file is absent, and returns
true; a duplicate string returns false and leaves the state unchanged; an
insertion attempted at (or beyond) the configured cap — absent or zero
configuration defaulting to 50 — returns false and leaves the state
unchanged. -/
theorem addGotcha_spec :
    ∀ (parseURL : String → Option (String × String)) (cfgMax : Option Nat)
      (now : String) (file : RawFile) (url gotcha pattern d : String),
    domainOf parseURL url = some d →
    file ≠ RawFile.malformed →
    ((gotcha ∉ sectionGotchas file pattern →
      (sectionGotchas file pattern).length < effMaxGotchas cfgMax →
      ∃ k', addGotcha parseURL cfgMax now file url gotcha pattern =
          Except.ok (true, RawFile.valid k') ∧
        sectionGotchas (RawFile.valid k') pattern =
          sectionGotchas file pattern ++ [gotcha] ∧
        (sectionGotchas (RawFile.valid k') pattern).count gotcha = 1) ∧
     (gotcha ∈ sectionGotchas file pattern →
      addGotcha parseURL cfgMax now file url gotcha pattern =
        Except.ok (false, file)) ∧
     (effMaxGotchas cfgMax ≤ (sectionGotchas file pattern).length →
      gotcha ∉ sectionGotchas file pattern →
      addGotcha parseURL cfgMax now file url gotcha pattern =
        Except.ok (false, file))) := by
  intro parseURL cfgMax now file url gotcha pattern d hd hnmal
  cases file with
  | malformed => exact absurd rfl hnmal
  | absent =>
    have heq := addGotcha_eq_core parseURL cfgMax now url gotcha pattern d
      RawFile.absent { domain := some d, updated := some now, sections := [] }
      hd (Or.inl ⟨rfl, rfl⟩)
    have hgs : sectionGotchas RawFile.absent pattern =
        ((lookupA (Knowledge.sections
          { domain := some d, updated := some now, sections := [] }) pattern).getD
            freshGotchaSection).gotchas.getD [] := rfl
    have := addGotchaCore_spec cfgMax now RawFile.absent
      { domain := some d, updated := some now, sections := [] } gotcha pattern hgs
    rw [heq]
    exact this
  | valid k =>
    have heq := addGotcha_eq_core parseURL cfgMax now url gotcha pattern d
      (RawFile.valid k) k hd (Or.inr rfl)
    have := addGotchaCore_spec cfgMax now (RawFile.valid k) k gotcha pattern
      (sectionGotchas_valid k pattern)
    rw [heq]
    exact this

/-- C1 witness: a fresh insertion into an absent record succeeds and creates
the record; inserting the already present string A into the concrete record
returns false and leaves the file unchanged. -/
theorem addGotcha_spec_witness :
    (∃ k', addGotcha parseURLex none "now" RawFile.absent "https://ex.com/x/1"
        "g" "_base" = Except.ok (true, RawFile.valid k') ∧
      sectionGotchas (RawFile.valid k') "_base" =
        sectionGotchas RawFile.absent "_base" ++ ["g"] ∧
      (sectionGotchas (RawFile.valid k') "_base").count "g" = 1) ∧
    addGotcha parseURLex none "now" (RawFile.valid knowEx) "https://ex.com/x/1"
        "A" "_base" = Except.ok (false, RawFile.valid knowEx) :=
  ⟨(addGotcha_spec parseURLex none "now" RawFile.absent "https://ex.com/x/1"
      "g" "_base" "ex.com" (by decide) (by decide)).1 (by decide) (by decide),
   (addGotcha_spec parseURLex none "now" (RawFile.valid knowEx)
      "https://ex.com/x/1" "A" "_base" "ex.com" (by decide) (by decide)).2.1
      (by decide)⟩

/-! ## Theorems: malformed persisted JSON (C6) -/

/-- C6: on a domain file holding malformed JSON, loadKnowledge returns null
and getKnowledge returns null, and updateElement and recordTaskResult return
false, each leaving the file untouched (their JSON.parse exception is caught
and logged) — but addGotcha, whose parse of an existing file is outside any
try/catch, propagates the exception instead of returning false, shown here at
a concrete input. -/
theorem knowledge_malformed_spec :
    (∀ (parseURL : String → Option (String × String)) (files : String → RawFile)
      (url d : String), domainOf parseURL url = some d →
      files d = RawFile.malformed → loadKnowledge parseURL files url = none) ∧
    (∀ (files : String → RawFile) (d : String), files d = RawFile.malformed →
      getKnowledge files d = none) ∧
    (∀ (parseURL : String → Option (String × String)) (now url name : String)
      (info : ElemInfo),
      updateElement parseURL now RawFile.malformed url name info =
        (false, RawFile.malformed)) ∧
    (∀ (parseURL : String → Option (String × String))
      (now today url taskName : String) (success : Bool),
      recordTaskResult parseURL now today RawFile.malformed url taskName success =
        (false, RawFile.malformed)) ∧
    addGotcha parseURLex none "now" RawFile.malformed "https://ex.com/x/1" "g"
        "_base" = Except.error "Unexpected token in JSON" := by
  refine ⟨?_, ?_, ?_, ?_, by decide⟩
  · intro parseURL files url d hd hf
    simp [loadKnowledge, hd, hf]
  · intro files d hf
    simp [getKnowledge, hf]
  · intro parseURL now url name info
    cases h : domainOf parseURL url <;> simp [updateElement, h]
  · intro parseURL now today url taskName success
    cases h : domainOf parseURL url <;> simp [recordTaskResult, h]

/-- C6 witness: the caught-error conjuncts instantiated at concrete inputs. -/
theorem knowledge_malformed_spec_witness :
    loadKnowledge parseURLex filesBad "https://ex.com/x/1" = none ∧
    getKnowledge filesBad "ex.com" = none ∧
    updateElement parseURLex "now" RawFile.malformed "https://ex.com/x/1"
      "submit" {} = (false, RawFile.malformed) ∧
    recordTaskResult parseURLex "now" "2026-10-12" RawFile.malformed
      "https://ex.com/x/1" "login" true = (false, RawFile.malformed) :=
  ⟨knowledge_malformed_spec.1 parseURLex filesBad "https://ex.com/x/1" "ex.com"
      (by decide) (by decide),
   knowledge_malformed_spec.2.1 filesBad "ex.com" (by decide),
   knowledge_malformed_spec.2.2.1 parseURLex "now" "https://ex.com/x/1"
      "submit" {},
   knowledge_malformed_spec.2.2.2.1 parseURLex "now" "2026-10-12"
      "https://ex.com/x/1" "login" true⟩

/-! ## Theorems: variable interpolation (C5) -/

theorem takeWhile_append_all {p : Char → Bool} :
    ∀ (l q : List Char), (∀ c ∈ l, p c = true) →
    (l ++ q).takeWhile p = l ++ q.takeWhile p := by
  intro l
  induction l with
  | nil => intro q _; simp
  | cons c t ih =>
    intro q h
    have hc := h c (by simp)
    simp only [List.cons_append, List.takeWhile_cons, hc, if_true]
    rw [ih q (fun x hx => h x (by simp [hx]))]

theorem dropWhile_append_all {p : Char → Bool} :
    ∀ (l q : List Char), (∀ c ∈ l, p c = true) →
    (l ++ q).dropWhile p = q.dropWhile p := by
  intro l
  induction l with
  | nil => intro q _; simp
  | cons c t ih =>
    intro q h
    have hc := h c (by simp)
    simp only [List.cons_append, List.dropWhile_cons, hc, if_true]
    exact ih q (fun x hx => h x (by simp [hx]))

theorem lexInterpGo_nil (fuel : Nat) : lexInterpGo fuel [] = [] := by
  cases fuel <;> rfl

theorem lexInterpGo_token (fuel : Nat) (kd : List Char) (hne : kd ≠ [])
    (hw : ∀ c ∈ kd, isWordChar c = true) :
    lexInterpGo (fuel + 1) (lbrace :: lbrace :: (kd ++ [rbrace, rbrace])) =
      [Chunk.tok (String.mk kd)] := by
  cases kd with
  | nil => exact absurd rfl hne
  | cons c0 kd' =>
    have hws : ((c0 :: kd') ++ [rbrace, rbrace]).takeWhile isWordChar = c0 :: kd' := by
      rw [takeWhile_append_all _ _ hw,
        show List.takeWhile isWordChar [rbrace, rbrace] = [] from rfl,
        List.append_nil]
    have hdrop : ((c0 :: kd') ++ [rbrace, rbrace]).dropWhile isWordChar =
        [rbrace, rbrace] := by
      rw [dropWhile_append_all _ _ hw]
      rfl
    have hc0 : isWordChar c0 = true := hw c0 (List.mem_cons_self _ _)
    simp only [List.cons_append] at hws hdrop
    simp [lexInterpGo, hws, hdrop, hc0, lexInterpGo_nil]

theorem renderChunks_error (vars : String → Option String) :
    ∀ (chunks : List Chunk) (k : String),
    (chunkKeys chunks).find? (fun key => (vars key).isNone) = some k →
    renderChunks vars chunks = Except.error ("Missing variable: " ++ k) := by
  intro chunks
  induction chunks with
  | nil => intro k h; simp [chunkKeys] at h
  | cons c rest ih =>
    intro k h
    cases c with
    | lit ch =>
      rw [chunkKeys] at h
      rw [renderChunks, ih k h]
      rfl
    | tok key =>
      rw [chunkKeys] at h
      cases hv : vars key with
      | none =>
        have : k = key := by
          rw [List.find?_cons_of_pos _ (by simp [hv])] at h
          exact (Option.some.injEq _ _ ▸ h).symm
        rw [renderChunks, hv, this]
      | some v =>
        have hrest : (chunkKeys rest).find? (fun key => (vars key).isNone) = some k := by
          rwa [List.find?_cons_of_neg _ (by simp [hv])] at h
        rw [renderChunks, hv, ih k hrest]
        rfl

theorem renderChunks_ok (vars : String → Option String) :
    ∀ (chunks : List Chunk),
    (∀ key ∈ chunkKeys chunks, (vars key).isSome = true) →
    renderChunks vars chunks = Except.ok (substitutedText vars chunks) := by
  intro chunks
  induction chunks with
  | nil => intro _; rfl
  | cons c rest ih =>
    intro h
    cases c with
    | lit ch =>
      rw [renderChunks, ih (fun key hk => h key (by rwa [chunkKeys])), substitutedText]
      rfl
    | tok key =>
      have hkey := h key (by rw [chunkKeys]; exact List.mem_cons_self _ _)
      cases hv : vars key with
      | none => rw [hv] at hkey; simp at hkey
      | some v =>
        rw [renderChunks, hv,
          ih (fun key hk => h key (by rw [chunkKeys]; exact List.mem_cons_of_mem _ hk)),
          substitutedText, hv]
        rfl

theorem interpolate_token (k : String) (vars : String → Option String)
    (hne : k ≠ "") (hw : ∀ c ∈ k.data, isWordChar c = true) :
    interpolate ("\x7b\x7b" ++ k ++ "\x7d\x7d") vars =
      (match vars k with
       | some v => Except.ok (escapeVal v)
       | none => Except.error ("Missing variable: " ++ k)) := by
  have hkd : k.data ≠ [] := fun h0 => hne (@String.ext k "" h0)
  have hdata : ("\x7b\x7b" ++ k ++ "\x7d\x7d").data =
      lbrace :: lbrace :: (k.data ++ [rbrace, rbrace]) := by
    rw [String.data_append, String.data_append]
    rfl
  have hcond : ¬((("\x7b\x7b" ++ k ++ "\x7d\x7d") == "") = true) := by
    simp only [beq_iff_eq]
    intro hcon
    have h2 := congrArg String.data hcon
    rw [hdata] at h2
    simp at h2
  rw [interpolate, if_neg hcond, hdata, lexInterp]
  have hlen : (lbrace :: lbrace :: (k.data ++ [rbrace, rbrace])).length =
      (k.data ++ [rbrace, rbrace]).length + 2 := by simp
  rw [lexInterpGo_token _ k.data hkd hw]
  cases hv : vars k with
  | none => rw [renderChunks, hv]; rfl
  | some v =>
    rw [renderChunks, hv, renderChunks]
    simp [Except.map]

/-- C5: within a value string, every double-brace identifier token is replaced
by the bound variable's string form with backslashes and double quotes
escaped; the first token bound to no variable aborts with the error naming it
(never silently left as literal text); a fully bound value renders to the
literal characters with each token substituted and escaped; and interpolation
is applied only to the value of type/fill and the navigate url — the click
command is independent of the variable bindings, which never touch action or
target fields. -/
theorem interpolate_spec :
    (∀ (k : String) (vars : String → Option String), k ≠ "" →
      (∀ c ∈ k.data, isWordChar c = true) →
      interpolate ("\x7b\x7b" ++ k ++ "\x7d\x7d") vars =
        (match vars k with
         | some v => Except.ok (escapeVal v)
         | none => Except.error ("Missing variable: " ++ k))) ∧
    (∀ (s : String) (vars : String → Option String) (k : String),
      (chunkKeys (lexInterp s.data)).find? (fun key => (vars key).isNone) = some k →
      interpolate s vars = Except.error ("Missing variable: " ++ k)) ∧
    (∀ (s : String) (vars : String → Option String),
      (∀ key ∈ chunkKeys (lexInterp s.data), (vars key).isSome = true) →
      interpolate s vars =
        Except.ok (String.mk (substitutedText vars (lexInterp s.data)))) ∧
    (∀ (a : Action) (v1 v2 : String → Option String) (els : List ParsedElement),
      a.action = "click" → renderAction a v1 els = renderAction a v2 els) ∧
    (∀ (a : Action) (vars : String → Option String) (els : List ParsedElement)
      (t : Target) (el : ParsedElement) (s : String),
      a.action = "type" → a.target = some t → a.value = some s →
      findElementWithFallback els t (a.fallback_targets.getD []) = some el →
      renderAction a vars els =
        (interpolate s vars).map (fun v => BrowserCmd.type ("@" ++ el.ref) v)) ∧
    (∀ (a : Action) (vars : String → Option String) (els : List ParsedElement)
      (t : Target) (el : ParsedElement) (s : String),
      a.action = "fill" → a.target = some t → a.value = some s →
      findElementWithFallback els t (a.fallback_targets.getD []) = some el →
      renderAction a vars els =
        (interpolate s vars).map (fun v => BrowserCmd.fill ("@" ++ el.ref) v)) ∧
    (∀ (a : Action) (vars : String → Option String) (els : List ParsedElement)
      (u : String), a.action = "navigate" → a.url = some u →
      renderAction a vars els = (interpolate u vars).map BrowserCmd.open) := by
  refine ⟨interpolate_token, ?_, ?_, ?_, ?_, ?_, ?_⟩
  · intro s vars k h
    by_cases hs : (s == "") = true
    · rw [show s = "" from by simpa using hs] at h
      simp [lexInterp, lexInterpGo, chunkKeys] at h
    · rw [interpolate, if_neg hs, renderChunks_error vars _ k h]
      rfl
  · intro s vars h
    by_cases hs : (s == "") = true
    · rw [show s = "" from by simpa using hs]
      rfl
    · rw [interpolate, if_neg hs, renderChunks_ok vars _ h]
      rfl
  · intro a v1 v2 els ha
    simp [renderAction, ha]
  · intro a vars els t el s ha ht hv hf
    simp [renderAction, ha, ht, hv, hf]
  · intro a vars els t el s ha ht hv hf
    simp [renderAction, ha, ht, hv, hf]
  · intro a vars els u ha hu
    simp [renderAction, ha, hu]

/-- C5 witness: a bound token is substituted with escaping applied, and an
unbound token aborts with the error naming it. -/
theorem interpolate_spec_witness :
    interpolate ("\x7b\x7b" ++ "user" ++ "\x7d\x7d") varsW =
      (match varsW "user" with
       | some v => Except.ok (escapeVal v)
       | none => Except.error ("Missing variable: " ++ "user")) ∧
    interpolate ("\x7b\x7b" ++ "user" ++ "\x7d\x7d") varsNone =
      (match varsNone "user" with
       | some v => Except.ok (escapeVal v)
       | none => Except.error ("Missing variable: " ++ "user")) :=
  ⟨interpolate_spec.1 "user" varsW (by decide) (by decide),
   interpolate_spec.1 "user" varsNone (by decide) (by decide)⟩

/-! ## Theorems: element resolution (C8) -/

/-- C8 counterexample: a target whose name field is provided as the empty
string. Under the claim (name exact if given) no element with a different
name may match, yet findElement returns the enabled button named x: the
source's truthiness guard skips an empty-string constraint entirely. -/
theorem findElement_empty_name_counterexample :
    findElement [elBtnX] { name := some "" } = some elBtnX ∧
    elBtnX.name ≠ "" := by
  exact ⟨by decide, by decide⟩

theorem elemMatches_eq (t : Target) (el : ParsedElement) :
    elemMatches t el =
      (!el.disabled &&
       (!strTruthy t.role || el.role == t.role.getD "") &&
       (!strTruthy t.name || el.name == t.name.getD "") &&
       (!strTruthy t.name_contains || containsCI el.name (t.name_contains.getD "")) &&
       (!t.nth.isSome || el.nth == t.nth.getD 0)) := by
  unfold elemMatches
  cases hA : strTruthy t.role <;> cases hX : (el.role == t.role.getD "") <;>
  cases hB : strTruthy t.name <;> cases hY : (el.name == t.name.getD "") <;>
  cases hC : strTruthy t.name_contains <;>
  cases hZ : containsCI el.name (t.name_contains.getD "") <;>
  cases hN : t.nth.isSome <;> cases hW : (el.nth == t.nth.getD 0) <;>
  cases hD : el.disabled <;> rfl

theorem elemMatches_iff (t : Target) (el : ParsedElement) :
    elemMatches t el = true ↔
      (el.disabled = false ∧
        (strTruthy t.role = true → el.role = t.role.getD "") ∧
        (strTruthy t.name = true → el.name = t.name.getD "") ∧
        (strTruthy t.name_contains = true →
          containsCI el.name (t.name_contains.getD "") = true) ∧
        (t.nth.isSome = true → el.nth = t.nth.getD 0)) := by
  rw [elemMatches_eq]
  simp only [Bool.and_eq_true, Bool.or_eq_true, Bool.not_eq_true', beq_iff_eq]
  constructor
  · rintro ⟨⟨⟨⟨hd, h1⟩, h2⟩, h3⟩, h4⟩
    refine ⟨hd, ?_, ?_, ?_, ?_⟩
    · intro h
      cases h1 with
      | inl hc => rw [h] at hc; cases hc
      | inr hc => exact hc
    · intro h
      cases h2 with
      | inl hc => rw [h] at hc; cases hc
      | inr hc => exact hc
    · intro h
      cases h3 with
      | inl hc => rw [h] at hc; cases hc
      | inr hc => exact hc
    · intro h
      cases h4 with
      | inl hc => rw [h] at hc; cases hc
      | inr hc => exact hc
  · rintro ⟨hd, h1, h2, h3, h4⟩
    refine ⟨⟨⟨⟨hd, ?_⟩, ?_⟩, ?_⟩, ?_⟩
    · cases hc : strTruthy t.role with
      | false => exact Or.inl rfl
      | true => exact Or.inr (h1 hc)
    · cases hc : strTruthy t.name with
      | false => exact Or.inl rfl
      | true => exact Or.inr (h2 hc)
    · cases hc : strTruthy t.name_contains with
      | false => exact Or.inl rfl
      | true => exact Or.inr (h3 hc)
    · cases hc : t.nth.isSome with
      | false => exact Or.inl rfl
      | true => exact Or.inr (h4 hc)

/-- C8 (amended): findElement returns the first element in sequence order
satisfying every truthily provided constraint of the target — role exact if
given and non-empty, name exact if given and non-empty, nameContains as a
case-insensitive substring if given and non-empty (an empty-string constraint
is skipped by the source's truthiness guards), nth exact whenever present
(including 0) — and returns no element when none satisfies them; an element
flagged disabled never matches any target. -/
theorem findElement_spec :
    (∀ (els : List ParsedElement) (t : Target) (e : ParsedElement),
      findElement els t = some e ↔
        elemMatches t e = true ∧ ∃ l1 l2, els = l1 ++ e :: l2 ∧
          ∀ x ∈ l1, elemMatches t x = false) ∧
    (∀ (els : List ParsedElement) (t : Target),
      findElement els t = none ↔ ∀ x ∈ els, elemMatches t x = false) ∧
    (∀ (t : Target) (el : ParsedElement), el.disabled = true →
      elemMatches t el = false) ∧
    (∀ (t : Target) (el : ParsedElement),
      elemMatches t el = true ↔
        (el.disabled = false ∧
          (strTruthy t.role = true → el.role = t.role.getD "") ∧
          (strTruthy t.name = true → el.name = t.name.getD "") ∧
          (strTruthy t.name_contains = true →
            containsCI el.name (t.name_contains.getD "") = true) ∧
          (t.nth.isSome = true → el.nth = t.nth.getD 0))) := by
  refine ⟨?_, ?_, ?_, elemMatches_iff⟩
  · intro els t e
    unfold findElement
    rw [List.find?_eq_some]
    simp [Bool.not_eq_true']
  · intro els t
    unfold findElement
    rw [List.find?_eq_none]
    simp [Bool.not_eq_true']
  · intro t el h
    rw [elemMatches_eq, h]
    rfl

/-- C8 witness: the disabled-never-matches clause applied to a concrete
disabled button, with its hypothesis discharged. -/
theorem findElement_spec_witness :
    elemMatches { role := some "button" } elDis = false :=
  findElement_spec.2.2.1 { role := some "button" } elDis (by decide)

/-! ## Run-loop lemmas (sequence.js) -/

theorem retryLoop_succ (env : Env) (i : Nat) (raws : Nat → String)
    (hs : ∀ n, env.snaps n = Except.ok (raws n)) :
    ∀ (d fuel attempt ctr : Nat), d < fuel →
      (∀ u, u < d → ∀ els, env.exec i (attempt + u) els ≠ none) →
      (∀ els, env.exec i (attempt + d) els = none) →
      retryLoop env i fuel attempt ctr =
        some (parseSnapshot (raws (ctr + d)), ctr + d + 1) := by
  intro d
  induction d with
  | zero =>
    intro fuel attempt ctr hd _ hsucc
    cases fuel with
    | zero => exact absurd hd (Nat.lt_irrefl 0)
    | succ f =>
      have hsucc' : env.exec i attempt (parseSnapshot (raws ctr)) = none := by
        have := hsucc (parseSnapshot (raws ctr))
        simpa using this
      simp only [retryLoop, hs ctr, hsucc', Nat.add_zero]
  | succ d ih =>
    intro fuel attempt ctr hd hfail hsucc
    cases fuel with
    | zero => exact absurd hd (Nat.not_lt_zero (d + 1))
    | succ f =>
      have hne : env.exec i attempt (parseSnapshot (raws ctr)) ≠ none := by
        have := hfail 0 (Nat.succ_pos d) (parseSnapshot (raws ctr))
        simpa using this
      obtain ⟨ev, hev⟩ : ∃ ev, env.exec i attempt (parseSnapshot (raws ctr)) = some ev := by
        cases hc : env.exec i attempt (parseSnapshot (raws ctr)) with
        | none => exact absurd hc hne
        | some ev => exact ⟨ev, rfl⟩
      have ihh := ih f (attempt + 1) (ctr + 1) (by omega)
        (fun u hu els => by
          have := hfail (u + 1) (by omega) els
          rwa [show attempt + (u + 1) = attempt + 1 + u by omega] at this)
        (fun els => by
          have := hsucc els
          rwa [show attempt + (d + 1) = attempt + 1 + d by omega] at this)
      simp only [retryLoop, hs ctr, hev, ihh]
      rw [show ctr + 1 + d = ctr + (d + 1) by omega]

theorem retryLoop_exhaust (env : Env) (i : Nat) (raws : Nat → String)
    (hs : ∀ n, env.snaps n = Except.ok (raws n)) :
    ∀ (fuel attempt ctr : Nat),
      (∀ u, u < fuel → ∀ els, env.exec i (attempt + u) els ≠ none) →
      retryLoop env i fuel attempt ctr = none := by
  intro fuel
  induction fuel with
  | zero => intro attempt ctr _; rfl
  | succ f ih =>
    intro attempt ctr hfail
    have hne : env.exec i attempt (parseSnapshot (raws ctr)) ≠ none := by
      have := hfail 0 (Nat.succ_pos f) (parseSnapshot (raws ctr))
      simpa using this
    obtain ⟨ev, hev⟩ : ∃ ev, env.exec i attempt (parseSnapshot (raws ctr)) = some ev := by
      cases hc : env.exec i attempt (parseSnapshot (raws ctr)) with
      | none => exact absurd hc hne
      | some ev => exact ⟨ev, rfl⟩
    have ihh := ih (attempt + 1) (ctr + 1) (fun u hu els => by
      have := hfail (u + 1) (by omega) els
      rwa [show attempt + (u + 1) = attempt + 1 + u by omega] at this)
    simp only [retryLoop, hs ctr, hev, ihh]

theorem consAll_cons (e : StepEntry) (es : List StepEntry) (o : LoopOut) :
    consAll (e :: es) o = LoopOut.cons e (consAll es o) := rfl

theorem consAll_done (es entries : List StepEntry) (els : List ParsedElement)
    (ctr : Nat) :
    consAll es (LoopOut.done entries els ctr) = LoopOut.done (es ++ entries) els ctr := by
  induction es with
  | nil => rfl
  | cons e rest ih =>
    rw [consAll_cons, ih]
    rfl

theorem consAll_failed (es entries : List StepEntry) (err : String) :
    consAll es (LoopOut.failed entries err) = LoopOut.failed (es ++ entries) err := by
  induction es with
  | nil => rfl
  | cons e rest ih =>
    rw [consAll_cons, ih]
    rfl

theorem runSteps_retry_head (env : Env) (cfg : RunConfig) (a : Action)
    (rest : List Action) (i ctr : Nat) (els : List ParsedElement) (e : String)
    (raws : Nat → String) (d : Nat)
    (hretry : cfg.retry_on_failure = true)
    (hs : ∀ n, env.snaps n = Except.ok (raws n))
    (hfail0 : env.exec i 0 els = some e)
    (hfailr : ∀ u, u < d → ∀ els', env.exec i (1 + u) els' ≠ none)
    (hsuccr : ∀ els', env.exec i (1 + d) els' = none)
    (hd : d < effMaxRetries cfg) :
    runSteps env cfg (a :: rest) i els ctr =
      LoopOut.cons (failEntry i a e) (LoopOut.cons (retryEntry i a)
        (runSteps env cfg rest (i + 1) (parseSnapshot (raws (ctr + d))) (ctr + d + 1))) := by
  have hr := retryLoop_succ env i raws hs d (effMaxRetries cfg) 1 ctr hd hfailr hsuccr
  simp only [runSteps, hfail0]
  rw [if_pos hretry, hr]

theorem runSteps_ok_prefix (env : Env) (cfg : RunConfig) :
    ∀ (pre rest : List Action) (i : Nat) (els : List ParsedElement) (ctr : Nat),
      (∀ k, k < pre.length → ∀ els', env.exec (i + k) 0 els' = none) →
      ∃ els' ctr', runSteps env cfg (pre ++ rest) i els ctr =
        consAll (okEntries i pre) (runSteps env cfg rest (i + pre.length) els' ctr') := by
  intro pre
  induction pre with
  | nil =>
    intro rest i els ctr _
    exact ⟨els, ctr, rfl⟩
  | cons a pre ih =>
    intro rest i els ctr hex
    have h0 : env.exec i 0 els = none := by
      have := hex 0 (Nat.succ_pos pre.length) els
      simpa using this
    have hshift : ∀ k, k < pre.length → ∀ els', env.exec (i + 1 + k) 0 els' = none := by
      intro k hk els'
      have := hex (k + 1) (Nat.succ_lt_succ hk) els'
      rwa [show i + (k + 1) = i + 1 + k by omega] at this
    have harith : i + (a :: pre).length = i + 1 + pre.length := by
      simp only [List.length_cons]
      omega
    by_cases hm : isMutating a.action = true
    · cases hsn : env.snaps ctr with
      | ok raw =>
        obtain ⟨els', ctr', hrec⟩ := ih rest (i + 1) (parseSnapshot raw) (ctr + 1) hshift
        refine ⟨els', ctr', ?_⟩
        rw [List.cons_append]
        simp only [runSteps, h0]
        rw [if_pos hm]
        simp only [hsn]
        rw [hrec, harith]
        rfl
      | error msg =>
        obtain ⟨els', ctr', hrec⟩ := ih rest (i + 1) els (ctr + 1) hshift
        refine ⟨els', ctr', ?_⟩
        rw [List.cons_append]
        simp only [runSteps, h0]
        rw [if_pos hm]
        simp only [hsn]
        rw [hrec, harith]
        rfl
    · obtain ⟨els', ctr', hrec⟩ := ih rest (i + 1) els ctr hshift
      refine ⟨els', ctr', ?_⟩
      rw [List.cons_append]
      simp only [runSteps, h0]
      rw [if_neg hm, hrec, harith]
      rfl

theorem runSteps_all_ok (env : Env) (cfg : RunConfig) (l : List Action) (i : Nat)
    (els : List ParsedElement) (ctr : Nat)
    (hex : ∀ k, k < l.length → ∀ els', env.exec (i + k) 0 els' = none) :
    ∃ els' ctr', runSteps env cfg l i els ctr = LoopOut.done (okEntries i l) els' ctr' := by
  obtain ⟨els', ctr', h⟩ := runSteps_ok_prefix env cfg l [] i els ctr hex
  refine ⟨els', ctr', ?_⟩
  rw [List.append_nil] at h
  rw [h, show runSteps env cfg [] (i + l.length) els' ctr' = LoopOut.done [] els' ctr'
    from rfl, consAll_done, List.append_nil]

theorem mem_okEntries : ∀ (l : List Action) (i : Nat) (entry : StepEntry),
    entry ∈ okEntries i l →
    i ≤ entry.step ∧ entry.step < i + l.length ∧ entry.status = "ok" := by
  intro l
  induction l with
  | nil =>
    intro i entry h
    simp only [okEntries] at h
    cases h
  | cons a rest ih =>
    intro i entry h
    simp only [okEntries, List.mem_cons] at h
    cases h with
    | inl he =>
      subst he
      refine ⟨Nat.le_refl _, ?_, rfl⟩
      simp only [okEntry, List.length_cons]
      omega
    | inr hm =>
      obtain ⟨h1, h2, h3⟩ := ih (i + 1) entry hm
      refine ⟨by omega, ?_, h3⟩
      simp only [List.length_cons]
      omega

theorem runSequence_retry_trace (env : Env) (cfg : RunConfig) (seq : SequenceDoc)
    (vars : String → Option String) (raws : Nat → String) (pre post : List Action)
    (a : Action) (e : String) (d : Nat)
    (hv : firstMissingRequired seq vars = none)
    (hp : seq.preconditions = none)
    (hver : seq.verification = none)
    (hsteps : getSteps seq = pre ++ a :: post)
    (hretry : cfg.retry_on_failure = true)
    (hs : ∀ n, env.snaps n = Except.ok (raws n))
    (hpre : ∀ k, k < pre.length → ∀ els, env.exec k 0 els = none)
    (hfail0 : ∀ els, env.exec pre.length 0 els = some e)
    (hfailr : ∀ u, u < d → ∀ els, env.exec pre.length (1 + u) els ≠ none)
    (hsuccr : ∀ els, env.exec pre.length (1 + d) els = none)
    (hd : d < effMaxRetries cfg)
    (hpost : ∀ k, pre.length + 1 ≤ k → ∀ els, env.exec k 0 els = none) :
    runSequence env cfg seq vars = Except.ok
      { success := true,
        steps := okEntries 0 pre ++ failEntry pre.length a e ::
          retryEntry pre.length a :: okEntries (pre.length + 1) post,
        error := none } := by
  obtain ⟨els1, ctr1, hpre_eq⟩ := runSteps_ok_prefix env cfg pre (a :: post) 0
    (parseSnapshot (raws 0)) 1 (fun k hk els' => by
      rw [Nat.zero_add]
      exact hpre k hk els')
  rw [Nat.zero_add] at hpre_eq
  have hhead := runSteps_retry_head env cfg a post pre.length ctr1 els1 e raws d
    hretry hs (hfail0 els1) hfailr hsuccr hd
  obtain ⟨els2, ctr2, htail⟩ := runSteps_all_ok env cfg post (pre.length + 1)
    (parseSnapshot (raws (ctr1 + d))) (ctr1 + d + 1)
    (fun k hk els' => hpost (pre.length + 1 + k) (by omega) els')
  have hrun : runSteps env cfg (getSteps seq) 0 (parseSnapshot (raws 0)) 1 =
      LoopOut.done (okEntries 0 pre ++ failEntry pre.length a e ::
        retryEntry pre.length a :: okEntries (pre.length + 1) post) els2 ctr2 := by
    rw [hsteps, hpre_eq, hhead, htail]
    simp only [LoopOut.cons, consAll_done]
  simp only [runSequence, hv, hp, hs 0, Nat.zero_add, hrun, hver]

theorem runSequence_fail_trace (env : Env) (cfg : RunConfig) (seq : SequenceDoc)
    (vars : String → Option String) (raws : Nat → String) (pre post : List Action)
    (a : Action) (e : String)
    (hv : firstMissingRequired seq vars = none)
    (hp : seq.preconditions = none)
    (hsteps : getSteps seq = pre ++ a :: post)
    (hs : ∀ n, env.snaps n = Except.ok (raws n))
    (hpre : ∀ k, k < pre.length → ∀ els, env.exec k 0 els = none)
    (hfail0 : ∀ els, env.exec pre.length 0 els = some e)
    (hcase : cfg.retry_on_failure = false ∨
      (cfg.retry_on_failure = true ∧
        ∀ u, u < effMaxRetries cfg → ∀ els, env.exec pre.length (1 + u) els ≠ none)) :
    runSequence env cfg seq vars = Except.ok
      { success := false,
        steps := okEntries 0 pre ++ [failEntry pre.length a e],
        error := some ("Step " ++ toString pre.length ++ " failed: " ++ e) } := by
  obtain ⟨els1, ctr1, hpre_eq⟩ := runSteps_ok_prefix env cfg pre (a :: post) 0
    (parseSnapshot (raws 0)) 1 (fun k hk els' => by
      rw [Nat.zero_add]
      exact hpre k hk els')
  rw [Nat.zero_add] at hpre_eq
  have hhead : runSteps env cfg (a :: post) pre.length els1 ctr1 =
      LoopOut.failed [failEntry pre.length a e]
        ("Step " ++ toString pre.length ++ " failed: " ++ e) := by
    cases hcase with
    | inl hoff =>
      simp only [runSteps, hfail0 els1]
      rw [if_neg (by simp [hoff])]
    | inr hc =>
      obtain ⟨hon, hall⟩ := hc
      have hr := retryLoop_exhaust env pre.length raws hs (effMaxRetries cfg) 1 ctr1 hall
      simp only [runSteps, hfail0 els1]
      rw [if_pos hon, hr]
  have hrun : runSteps env cfg (getSteps seq) 0 (parseSnapshot (raws 0)) 1 =
      LoopOut.failed (okEntries 0 pre ++ [failEntry pre.length a e])
        ("Step " ++ toString pre.length ++ " failed: " ++ e) := by
    rw [hsteps, hpre_eq, hhead, consAll_failed]
  simp only [runSequence, hv, hp, hs 0, Nat.zero_add, hrun]

/-! ## Theorems: run loop (C4, C7, C10) -/

/-- C4: with retry enabled, a step that fails its first attempt but whose
(d+1)-th retry succeeds yields an overall success == true result whose trace
holds, at that step's index, a failed entry followed by an ok (retry) entry,
with the later steps running normally; with retry disabled, or with every
retry attempt failing, runSequence returns success == false, an error string
naming the failing step's index, and a trace holding only the earlier ok
entries plus that step's failed entry — every entry's index is at most the
failing index, the entry at the failing index has status failed, and any
non-failed entry lies strictly before it (the failure case leaves executions
after the failing step unconstrained, so no later step can influence the
result). -/
theorem runSequence_retry_outcome_spec :
    (∀ (env : Env) (cfg : RunConfig) (seq : SequenceDoc) (vars : String → Option String)
       (raws : Nat → String) (pre post : List Action) (a : Action) (e : String) (d : Nat),
      firstMissingRequired seq vars = none →
      seq.preconditions = none →
      seq.verification = none →
      getSteps seq = pre ++ a :: post →
      cfg.retry_on_failure = true →
      (∀ n, env.snaps n = Except.ok (raws n)) →
      (∀ k, k < pre.length → ∀ els, env.exec k 0 els = none) →
      (∀ els, env.exec pre.length 0 els = some e) →
      (∀ u, u < d → ∀ els, env.exec pre.length (1 + u) els ≠ none) →
      (∀ els, env.exec pre.length (1 + d) els = none) →
      d < effMaxRetries cfg →
      (∀ k, pre.length + 1 ≤ k → ∀ els, env.exec k 0 els = none) →
      runSequence env cfg seq vars = Except.ok
        { success := true,
          steps := okEntries 0 pre ++ failEntry pre.length a e ::
            retryEntry pre.length a :: okEntries (pre.length + 1) post,
          error := none }) ∧
    (∀ (env : Env) (cfg : RunConfig) (seq : SequenceDoc) (vars : String → Option String)
       (raws : Nat → String) (pre post : List Action) (a : Action) (e : String),
      firstMissingRequired seq vars = none →
      seq.preconditions = none →
      getSteps seq = pre ++ a :: post →
      (∀ n, env.snaps n = Except.ok (raws n)) →
      (∀ k, k < pre.length → ∀ els, env.exec k 0 els = none) →
      (∀ els, env.exec pre.length 0 els = some e) →
      (cfg.retry_on_failure = false ∨
        (cfg.retry_on_failure = true ∧
          ∀ u, u < effMaxRetries cfg → ∀ els, env.exec pre.length (1 + u) els ≠ none)) →
      runSequence env cfg seq vars = Except.ok
        { success := false,
          steps := okEntries 0 pre ++ [failEntry pre.length a e],
          error := some ("Step " ++ toString pre.length ++ " failed: " ++ e) } ∧
      ∀ entry ∈ okEntries 0 pre ++ [failEntry pre.length a e],
        entry.step ≤ pre.length ∧
        (entry.step = pre.length → entry.status = "failed") ∧
        (entry.status ≠ "failed" → entry.step < pre.length)) := by
  constructor
  · intro env cfg seq vars raws pre post a e d hv hp hver hsteps hretry hs hpre
      hfail0 hfailr hsuccr hd hpost
    exact runSequence_retry_trace env cfg seq vars raws pre post a e d hv hp hver
      hsteps hretry hs hpre hfail0 hfailr hsuccr hd hpost
  · intro env cfg seq vars raws pre post a e hv hp hsteps hs hpre hfail0 hcase
    refine ⟨runSequence_fail_trace env cfg seq vars raws pre post a e hv hp hsteps
      hs hpre hfail0 hcase, ?_⟩
    intro entry hmem
    rw [List.mem_append] at hmem
    cases hmem with
    | inl hin =>
      obtain ⟨h1, h2, h3⟩ := mem_okEntries pre 0 entry hin
      exact ⟨by omega, fun hstep => absurd hstep (by omega), fun _ => by omega⟩
    | inr hin =>
      rw [List.mem_singleton] at hin
      subst hin
      exact ⟨Nat.le_refl _, fun _ => rfl, fun hne => absurd rfl hne⟩

/-- C4 witness: the two branches applied to concrete runs — a first step of
two clicks failing once and retried successfully under the retry-enabled
configuration, and the same sequence failing permanently with retries
disabled. -/
theorem runSequence_retry_outcome_spec_witness :
    runSequence envRetry cfgRetry seqTwoClicks varsNone = Except.ok
      { success := true,
        steps := [failEntry 0 actClick "boom", retryEntry 0 actClick, okEntry 1 actClick],
        error := none } ∧
    runSequence envFail cfgNoRetry seqTwoClicks varsNone = Except.ok
      { success := false,
        steps := [failEntry 0 actClick "boom"],
        error := some "Step 0 failed: boom" } := by
  constructor
  · exact runSequence_retry_outcome_spec.1 envRetry cfgRetry seqTwoClicks varsNone
      rawsRetry [] [actClick] actClick "boom" 0 rfl rfl rfl rfl rfl (fun n => rfl)
      (fun k hk els => absurd hk (Nat.not_lt_zero k))
      (fun els => rfl)
      (fun u hu els => absurd hu (Nat.not_lt_zero u))
      (fun els => rfl)
      (by decide)
      (fun k hk els => by
        have hk0 : (k == 0) = false := by
          simp only [beq_eq_false_iff_ne]
          omega
        simp [envRetry, hk0]
        omega)
  · exact (runSequence_retry_outcome_spec.2 envFail cfgNoRetry seqTwoClicks varsNone
      (fun n => "") [] [actClick] actClick "boom" rfl rfl rfl (fun n => rfl)
      (fun k hk els => absurd hk (Nat.not_lt_zero k))
      (fun els => rfl)
      (Or.inl rfl)).1

/-- C7 counterexample: the spec-modelled claim that a step succeeding on a
retry is also followed by a snapshot refresh before the next step. In the
source the retry loop's success hands the continuation the parse of the
snapshot taken before the successful attempt and issues no further snapshot;
on a concrete environment whose consecutive snapshots differ, the claimed
equation is false. -/
theorem refreshAfterRetryClaim_counterexample : ¬refreshAfterRetryClaim := by
  intro h
  have hinst := h envRetry cfgRetry actClick [actClick] 0 0 [] "boom" rawsRetry
    (by decide) rfl (fun n => rfl) rfl (fun els' => rfl) (by decide)
  exact absurd hinst (by decide)

/-- C7 (amended): a DOM-mutating step succeeding on its first attempt is
followed by a snapshot refresh, so the next step sees the freshly parsed
element list whenever snapshotting succeeds, and a refresh failure is
tolerated, continuing with the stale element list; but a step that succeeds
on retry d+1 hands the continuation the parse of the snapshot taken before
that successful attempt and performs no post-success refresh. -/
theorem snapshot_refresh_spec :
    (∀ (env : Env) (cfg : RunConfig) (a : Action) (rest : List Action)
       (i ctr : Nat) (els : List ParsedElement) (raw : String),
      isMutating a.action = true →
      env.exec i 0 els = none →
      env.snaps ctr = Except.ok raw →
      runSteps env cfg (a :: rest) i els ctr =
        LoopOut.cons (okEntry i a)
          (runSteps env cfg rest (i + 1) (parseSnapshot raw) (ctr + 1))) ∧
    (∀ (env : Env) (cfg : RunConfig) (a : Action) (rest : List Action)
       (i ctr : Nat) (els : List ParsedElement) (msg : String),
      isMutating a.action = true →
      env.exec i 0 els = none →
      env.snaps ctr = Except.error msg →
      runSteps env cfg (a :: rest) i els ctr =
        LoopOut.cons (okEntry i a)
          (runSteps env cfg rest (i + 1) els (ctr + 1))) ∧
    (∀ (env : Env) (cfg : RunConfig) (a : Action) (rest : List Action)
       (i ctr : Nat) (els : List ParsedElement) (e : String)
       (raws : Nat → String) (d : Nat),
      cfg.retry_on_failure = true →
      (∀ n, env.snaps n = Except.ok (raws n)) →
      env.exec i 0 els = some e →
      (∀ u, u < d → ∀ els', env.exec i (1 + u) els' ≠ none) →
      (∀ els', env.exec i (1 + d) els' = none) →
      d < effMaxRetries cfg →
      runSteps env cfg (a :: rest) i els ctr =
        LoopOut.cons (failEntry i a e) (LoopOut.cons (retryEntry i a)
          (runSteps env cfg rest (i + 1) (parseSnapshot (raws (ctr + d))) (ctr + d + 1)))) := by
  refine ⟨?_, ?_, ?_⟩
  · intro env cfg a rest i ctr els raw hm hexec hsnap
    simp only [runSteps, hexec]
    rw [if_pos hm, hsnap]
  · intro env cfg a rest i ctr els msg hm hexec hsnap
    simp only [runSteps, hexec]
    rw [if_pos hm, hsnap]
  · intro env cfg a rest i ctr els e raws d hretry hs hfail0 hfailr hsuccr hd
    exact runSteps_retry_head env cfg a rest i ctr els e raws d hretry hs hfail0
      hfailr hsuccr hd

/-- C7 witness: the first-attempt refresh and the retry-success continuation
applied to concrete runs. -/
theorem snapshot_refresh_spec_witness :
    runSteps envOk cfgNoRetry [actClick] 0 [] 5 =
      LoopOut.cons (okEntry 0 actClick)
        (runSteps envOk cfgNoRetry [] 1 (parseSnapshot "") 6) ∧
    runSteps envRetry cfgRetry [actClick, actClick] 0 [] 0 =
      LoopOut.cons (failEntry 0 actClick "boom") (LoopOut.cons (retryEntry 0 actClick)
        (runSteps envRetry cfgRetry [actClick] 1 (parseSnapshot (rawsRetry 0)) 1)) :=
  ⟨snapshot_refresh_spec.1 envOk cfgNoRetry actClick [] 0 5 [] "" (by decide) rfl rfl,
   snapshot_refresh_spec.2.2 envRetry cfgRetry actClick [actClick] 0 0 [] "boom"
     rawsRetry 0 rfl (fun n => rfl) rfl
     (fun u hu els' => absurd hu (Nat.not_lt_zero u))
     (fun els' => rfl) (by decide)⟩

/-- C10: a run whose step fails its first attempt and succeeds on a retry
produces a result whose trace holds two adjacent entries for that step's
index — first a failed entry carrying the original error message, then an
ok (retry) entry — inside an overall success == true result, so a successful
result can contain entries whose status is failed. -/
theorem runSequence_failed_entry_in_success :
    ∀ (env : Env) (cfg : RunConfig) (seq : SequenceDoc) (vars : String → Option String)
      (raws : Nat → String) (pre post : List Action) (a : Action) (e : String) (d : Nat),
      firstMissingRequired seq vars = none →
      seq.preconditions = none →
      seq.verification = none →
      getSteps seq = pre ++ a :: post →
      cfg.retry_on_failure = true →
      (∀ n, env.snaps n = Except.ok (raws n)) →
      (∀ k, k < pre.length → ∀ els, env.exec k 0 els = none) →
      (∀ els, env.exec pre.length 0 els = some e) →
      (∀ u, u < d → ∀ els, env.exec pre.length (1 + u) els ≠ none) →
      (∀ els, env.exec pre.length (1 + d) els = none) →
      d < effMaxRetries cfg →
      (∀ k, pre.length + 1 ≤ k → ∀ els, env.exec k 0 els = none) →
      ∃ r : RunResult, runSequence env cfg seq vars = Except.ok r ∧
        r.success = true ∧
        r.steps = okEntries 0 pre ++ failEntry pre.length a e ::
          retryEntry pre.length a :: okEntries (pre.length + 1) post ∧
        (failEntry pre.length a e).step = pre.length ∧
        (failEntry pre.length a e).status = "failed" ∧
        (failEntry pre.length a e).error = some e ∧
        (retryEntry pre.length a).step = pre.length ∧
        (retryEntry pre.length a).status = "ok (retry)" ∧
        ∃ entry ∈ r.steps, entry.status = "failed" := by
  intro env cfg seq vars raws pre post a e d hv hp hver hsteps hretry hs hpre
    hfail0 hfailr hsuccr hd hpost
  refine ⟨_, runSequence_retry_trace env cfg seq vars raws pre post a e d hv hp hver
    hsteps hretry hs hpre hfail0 hfailr hsuccr hd hpost,
    rfl, rfl, rfl, rfl, rfl, rfl, rfl, ?_⟩
  exact ⟨failEntry pre.length a e, by simp, rfl⟩

/-- C10 witness: the concrete retried run, its success flag and its failed
entry. -/
theorem runSequence_failed_entry_in_success_witness :
    ∃ r : RunResult, runSequence envRetry cfgRetry seqTwoClicks varsNone = Except.ok r ∧
      r.success = true ∧ ∃ entry ∈ r.steps, entry.status = "failed" := by
  obtain ⟨r, h1, h2, h3, h4, h5, h6, h7, h8, h9⟩ :=
    runSequence_failed_entry_in_success envRetry cfgRetry seqTwoClicks varsNone
      rawsRetry [] [actClick] actClick "boom" 0 rfl rfl rfl rfl rfl (fun n => rfl)
      (fun k hk els => absurd hk (Nat.not_lt_zero k))
      (fun els => rfl)
      (fun u hu els => absurd hu (Nat.not_lt_zero u))
      (fun els => rfl)
      (by decide)
      (fun k hk els => by
        have hk0 : (k == 0) = false := by
          simp only [beq_eq_false_iff_ne]
          omega
        simp [envRetry, hk0]
        omega)
  exact ⟨r, h1, h2, h9⟩

/-! ## Theorems: verification (C9) -/

theorem infixOfB_iff (n : List Char) : ∀ h : List Char, infixOfB n h = true ↔ n <:+: h := by
  intro h
  induction h with
  | nil => simp only [infixOfB, List.isEmpty_iff, List.infix_nil]
  | cons c t ih =>
    simp only [infixOfB, Bool.or_eq_true, List.isPrefixOf_iff_prefix, ih,
      List.infix_cons_iff]

theorem criterionOk_text (t : VTarget) (raw txt : String)
    (h : t.text_contains = some txt) (hne : txt ≠ "")
    (hsub : infixOfB txt.data raw.data = true) :
    criterionOk t raw = true := by
  have htr : strTruthy t.text_contains = true := by
    rw [h]
    simp [strTruthy, hne]
  unfold criterionOk
  rw [if_pos htr, h, Option.getD_some]
  have hinf : txt.data <:+: raw.data := (infixOfB_iff _ _).mp hsub
  have hmap : toLowerList txt.data <:+: toLowerList raw.data := hinf.map Char.toLower
  unfold containsCI
  exact (infixOfB_iff _ _).mpr hmap

theorem criterionOk_structural (t : VTarget) (raw : String)
    (hnt : strTruthy t.text_contains = false)
    (hfind : (findElement (parseSnapshot raw) (toTarget t)).isSome = true) :
    criterionOk t raw = true := by
  unfold criterionOk
  rw [if_neg (by simp [hnt])]
  exact hfind

theorem verifyGo_found (env : Env) (targets : List VTarget) (fuel ctr polls : Nat)
    (raw : String) (hsnap : env.snaps ctr = Except.ok raw)
    (hhit : ∃ t ∈ targets, criterionOk t raw = true) :
    verifyGo env targets (fuel + 1) ctr polls = Except.ok (polls + 1, true) := by
  have hany : (targets.any fun t => criterionOk t raw) = true := by
    rw [List.any_eq_true]
    obtain ⟨t, ht, hc⟩ := hhit
    exact ⟨t, ht, hc⟩
  simp only [verifyGo, hsnap]
  rw [if_pos hany]

theorem verifyGo_fail (env : Env) (targets : List VTarget) :
    ∀ (fuel ctr polls : Nat),
      (∀ u, u < fuel → ∃ raw, env.snaps (ctr + u) = Except.ok raw ∧
        ∀ t ∈ targets, criterionOk t raw = false) →
      verifyGo env targets fuel ctr polls = Except.ok (polls + fuel, false) := by
  intro fuel
  induction fuel with
  | zero => intro ctr polls _; rfl
  | succ f ih =>
    intro ctr polls h
    obtain ⟨raw, hsnap, hcrit⟩ := h 0 (Nat.succ_pos f)
    rw [Nat.add_zero] at hsnap
    have hany : (targets.any fun t => criterionOk t raw) = false := by
      cases hc : targets.any fun t => criterionOk t raw with
      | false => rfl
      | true =>
        rw [List.any_eq_true] at hc
        obtain ⟨t, ht, hcr⟩ := hc
        rw [hcrit t ht] at hcr
        exact absurd hcr Bool.false_ne_true
    have ihh := ih (ctr + 1) (polls + 1) (fun u hu => by
      have := h (u + 1) (by omega)
      rwa [show ctr + (u + 1) = ctr + 1 + u by omega] at this)
    simp only [verifyGo, hsnap]
    rw [if_neg (by simp [hany]), ihh, show polls + 1 + f = polls + (f + 1) by omega]

/-- C9: the verification loop — a criterion is satisfied by literal substring
presence of its text in the raw snapshot (case-insensitivity makes the literal
occurrence sufficient) or, for a non-text criterion, by structural element
resolution; an attempt whose snapshot satisfies some criterion succeeds
immediately; the attempt budget is exactly the ceiling of timeout / 500 with
timeout defaulting to 5000; criteria never satisfied within the budget consume
exactly that many polls and verify only a spec marked required === false; at
run level an exhausted verification yields success == false with the dedicated
error message unless required === false, which yields success == true. -/
theorem verification_spec :
    (∀ (t : VTarget) (raw txt : String),
      t.text_contains = some txt → txt ≠ "" → infixOfB txt.data raw.data = true →
      criterionOk t raw = true) ∧
    (∀ (t : VTarget) (raw : String),
      strTruthy t.text_contains = false →
      (findElement (parseSnapshot raw) (toTarget t)).isSome = true →
      criterionOk t raw = true) ∧
    (∀ v : Verification, maxAttemptsOf v = (numOr v.timeout 5000 + 499) / 500) ∧
    (∀ (env : Env) (targets : List VTarget) (fuel ctr polls : Nat) (raw : String),
      env.snaps ctr = Except.ok raw →
      (∃ t ∈ targets, criterionOk t raw = true) →
      verifyGo env targets (fuel + 1) ctr polls = Except.ok (polls + 1, true)) ∧
    (∀ (env : Env) (v : Verification) (ctr : Nat) (raws : Nat → String),
      verifyTargets v ≠ [] →
      (∀ u, u < maxAttemptsOf v → env.snaps (ctr + u) = Except.ok (raws u)) →
      (∀ u, u < maxAttemptsOf v → ∀ t ∈ verifyTargets v, criterionOk t (raws u) = false) →
      verifyRun env v ctr = Except.ok (maxAttemptsOf v, v.required == some false)) ∧
    (∀ (env : Env) (cfg : RunConfig) (seq : SequenceDoc) (vars : String → Option String)
       (raw0 : String) (entries : List StepEntry) (els : List ParsedElement)
       (ctr : Nat) (v : Verification),
      firstMissingRequired seq vars = none →
      seq.preconditions = none →
      env.snaps 0 = Except.ok raw0 →
      runSteps env cfg (getSteps seq) 0 (parseSnapshot raw0) 1 =
        LoopOut.done entries els ctr →
      seq.verification = some v →
      verifyRun env v ctr = Except.ok (maxAttemptsOf v, v.required == some false) →
      runSequence env cfg seq vars =
        (if v.required == some false then
          Except.ok { success := true, steps := entries }
        else
          Except.ok { success := false, steps := entries,
                      error := some "Sequence verification failed" })) := by
  refine ⟨criterionOk_text, criterionOk_structural, fun v => rfl, verifyGo_found,
    ?_, ?_⟩
  · intro env v ctr raws hne hsn hcrit
    have hne' : (verifyTargets v).isEmpty = false := by
      cases hl : verifyTargets v with
      | nil => exact absurd hl hne
      | cons x xs => rfl
    have hgo := verifyGo_fail env (verifyTargets v) (maxAttemptsOf v) ctr 0
      (fun u hu => ⟨raws u, hsn u hu, hcrit u hu⟩)
    rw [Nat.zero_add] at hgo
    simp only [verifyRun]
    rw [if_neg (by simp [hne']), hgo]
    rfl
  · intro env cfg seq vars raw0 entries els ctr v hv hp h0 hrun hver hvr
    simp only [runSequence, hv, hp, h0, Nat.zero_add, hrun, hver, hvr]

/-- C9 witness: the one-click sequence with a Welcome text criterion against
an environment of empty snapshots — the required form fails with the dedicated
error after the full budget, the required === false form succeeds. -/
theorem verification_spec_witness :
    runSequence envOk cfgNoRetry seqVerified varsNone =
      Except.ok { success := false, steps := [okEntry 0 actClick],
                  error := some "Sequence verification failed" } ∧
    runSequence envOk cfgNoRetry seqVerifiedOptional varsNone =
      Except.ok { success := true, steps := [okEntry 0 actClick] } := by
  constructor
  · have h := verification_spec.2.2.2.2.2 envOk cfgNoRetry seqVerified varsNone
      "" [okEntry 0 actClick] [] 2
      { wait_for := some { text_contains := some "Welcome" } }
      rfl rfl rfl (by decide) rfl (by decide)
    exact h
  · have h := verification_spec.2.2.2.2.2 envOk cfgNoRetry seqVerifiedOptional varsNone
      "" [okEntry 0 actClick] [] 2
      { wait_for := some { text_contains := some "Welcome" }, required := some false }
      rfl rfl rfl (by decide) rfl (by decide)
    exact h

end ZylosBrowser
